import Mathlib

/-!
Shallow embedding of the agent runtime core of this repository: workspace
storage routing (cassey/storage/workspace_storage.py), the file sandbox
(cassey/storage/file_sandbox.py), built-in tool handlers
(file_sandbox.py, executive_assistant/tools/reminder_tools.py), the tool
loop breaker (executive_assistant/agent/tool_loop_breaker.py), the flow
runner (executive_assistant/flows/runner.py), instinct confidence scoring
(executive_assistant/instincts/injector.py), the Telegram message splitter
(cassey/channels/telegram.py) and reminder time parsing
(executive_assistant/tools/reminder_tools.py).

Database tables are modelled as association lists, effectful primitives by
explicit outcome parameters, machine floats by rationals, instants by
integers, and Python strings by lists of characters where character-level
reasoning is needed.
-/

namespace Assoc

/-- First-match lookup in an association list; models a SQL
`SELECT v FROM t WHERE key = $1` against a table whose key column is a
primary key (first matching row). -/
def alookup {α : Type} (k : String) : List (String × α) → Option α
  | [] => none
  | (k', v) :: rest => if k' = k then some v else alookup k rest

/-- Upsert: replace the value at the first occurrence of the key keeping its
position, or append a new pair; models
`INSERT ... ON CONFLICT (key) DO UPDATE SET value = $2`. -/
def upsert {α : Type} (k : String) (v : α) : List (String × α) → List (String × α)
  | [] => [(k, v)]
  | (k', v') :: rest => if k' = k then (k, v) :: rest else (k', v') :: upsert k v rest

end Assoc

namespace WorkspaceStorage

open Assoc

/-- The user_aliases table: rows (alias_id, user_id); alias_id is the
primary key. -/
abbrev AliasTable := List (String × String)

/-- Loop body of `resolve_alias_chain` (workspace_storage.py lines 601-617):
repeatedly follow alias links, stopping when no row matches or when the next
link is already in `seen`.  The Python `while True` loop performs at most
`table.length + 1` iterations because every iteration that recurses adds to
`seen` a fresh element drawn from the table's value column, so the fuel below
is never exhausted before the loop breaks. -/
def resolveAliasChainGo (table : AliasTable) : Nat → List String → String → String
  | 0, _, current => current
  | fuel + 1, seen, current =>
    match alookup current table with
    | none => current
    | some resolved =>
      if resolved ∈ seen then current
      else resolveAliasChainGo table fuel (resolved :: seen) resolved

/-- `resolve_alias_chain` (workspace_storage.py lines 587-617): resolve an
alias chain to get the canonical user_id, with `seen`-set cycle detection. -/
def resolve_alias_chain (table : AliasTable) (user_id : String) : String :=
  resolveAliasChainGo table (table.length + 1) [user_id] user_id

/-- Row of the `workspaces` table (column `type` is named `wtype` here). -/
structure WorkspaceRow where
  workspace_id : String
  wtype : String
  name : String
  owner_user_id : Option String := none
  owner_group_id : Option String := none
  owner_system_id : Option String := none
deriving DecidableEq, Repr

/-- Row of the `workspace_members` table. -/
structure MemberRow where
  workspace_id : String
  user_id : String
  role : String
deriving DecidableEq, Repr

/-- Row of the `group_members` table. -/
structure GroupMemberRow where
  group_id : String
  user_id : String
  role : String
deriving DecidableEq, Repr

/-- Row of the `workspace_acl` table. -/
structure AclRow where
  workspace_id : String
  target_user_id : String
  permission : String
  expires_at : Option Int := none
deriving DecidableEq, Repr

/-- The relational state read and written by workspace_storage.py. -/
structure WDB where
  users : List String := []
  user_aliases : AliasTable := []
  user_workspaces : List (String × String) := []
  thread_workspaces : List (String × String) := []
  workspaces : List WorkspaceRow := []
  workspace_members : List MemberRow := []
  group_members : List GroupMemberRow := []
  workspace_acl : List AclRow := []
deriving DecidableEq, Repr

/-- `resolve_user_id` (workspace_storage.py lines 168-188): one alias lookup,
falling back to the input (`canonical or user_id`). -/
def resolve_user_id (db : WDB) (user_id : String) : String :=
  (alookup user_id db.user_aliases).getD user_id

/-- `get_user_workspace` (lines 191-208). -/
def get_user_workspace (db : WDB) (user_id : String) : Option String :=
  alookup user_id db.user_workspaces

/-- `get_thread_workspace` (lines 211-228). -/
def get_thread_workspace (db : WDB) (thread_id : String) : Option String :=
  alookup thread_id db.thread_workspaces

/-- `ensure_user` (lines 231-252): `INSERT ... ON CONFLICT DO NOTHING`. -/
def ensure_user (db : WDB) (user_id : String) : WDB :=
  if user_id ∈ db.users then db else { db with users := db.users ++ [user_id] }

/-- `ensure_user_workspace` (lines 255-297).  `fresh` stands for the value
returned by `generate_workspace_id()` when a new workspace is created. -/
def ensure_user_workspace (db : WDB) (fresh : String) (user_id : String) :
    String × WDB :=
  let db1 := ensure_user db user_id
  match get_user_workspace db1 user_id with
  | some existing => (existing, db1)
  | none =>
    let w : WorkspaceRow :=
      { workspace_id := fresh, wtype := "individual", name := "My Workspace",
        owner_user_id := some user_id }
    (fresh,
      { db1 with
        workspaces := db1.workspaces ++ [w],
        user_workspaces := db1.user_workspaces ++ [(user_id, fresh)] })

/-- `ensure_thread_workspace` (lines 300-336): resolve the alias, ensure the
canonical user has a workspace, then
`INSERT INTO thread_workspaces ... ON CONFLICT (thread_id) DO UPDATE SET
workspace_id = $2`. -/
def ensure_thread_workspace (db : WDB) (fresh : String)
    (thread_id user_id : String) : String × WDB :=
  let canonical := resolve_user_id db user_id
  let r := ensure_user_workspace db fresh canonical
  (r.1, { r.2 with thread_workspaces := upsert thread_id r.1 r.2.thread_workspaces })

/-- `get_workspace_info` (lines 339-370), as the raw row. -/
def get_workspace_info (db : WDB) (workspace_id : String) : Option WorkspaceRow :=
  db.workspaces.find? (fun w => w.workspace_id == workspace_id)

/-- The `ROLE_PERMISSIONS` table (lines 377-381) together with the
`.get(action, False)` read done by `can_access`. -/
def rolePermissions (role action : String) : Bool :=
  if role == "admin" then action == "read" || action == "write" || action == "admin"
  else if role == "editor" then action == "read" || action == "write"
  else if role == "reader" then action == "read"
  else false

/-- First matching `workspace_members` row for (workspace_id, user_id). -/
def memberRole (db : WDB) (workspace_id user_id : String) : Option String :=
  ((db.workspace_members.find? (fun r =>
      r.workspace_id == workspace_id && r.user_id == user_id)).map (·.role))

/-- First matching `group_members` row for (group_id, user_id). -/
def groupRole (db : WDB) (group_id user_id : String) : Option String :=
  ((db.group_members.find? (fun r =>
      r.group_id == group_id && r.user_id == user_id)).map (·.role))

/-- Rank used by the ACL query's `ORDER BY CASE permission ...` clause. -/
def aclRank (p : String) : Nat :=
  if p == "admin" then 3 else if p == "write" then 2 else if p == "read" then 1 else 0

/-- Rows admitted by the WHERE clause of the ACL query inside `can_access`
(lines 442-457): target user matches, the permission passes the
`($2 = 'read' OR permission = 'write' OR permission = 'admin')` filter and the
grant is unexpired (`expires_at IS NULL OR expires_at > NOW()`). -/
def aclCandidates (db : WDB) (now : Int) (workspace_id user_id action : String) :
    List AclRow :=
  db.workspace_acl.filter (fun r =>
    r.workspace_id == workspace_id && r.target_user_id == user_id &&
    (action == "read" || r.permission == "write" || r.permission == "admin") &&
    (match r.expires_at with | none => true | some e => decide (now < e)))

/-- The `ORDER BY rank DESC LIMIT 1` of the ACL query: the permission of a
maximal-rank admitted row (first among equals), if any. -/
def aclBestGrant (db : WDB) (now : Int) (workspace_id user_id action : String) :
    Option String :=
  match aclCandidates db now workspace_id user_id action with
  | [] => none
  | r :: rest =>
    some (rest.foldl
      (fun best r' => if aclRank r'.permission > aclRank best then r'.permission else best)
      r.permission)

/-- `can_access` (workspace_storage.py lines 384-467). -/
def can_access (db : WDB) (now : Int) (user_id workspace_id action : String) : Bool :=
  let canonical := resolve_user_id db user_id
  match get_workspace_info db workspace_id with
  | none => false
  | some w =>
    if w.owner_user_id = some canonical then true
    else
      match memberRole db workspace_id canonical with
      | some role => rolePermissions role action
      | none =>
        let groupDecision : Option Bool :=
          match w.owner_group_id with
          | some gid =>
            match groupRole db gid canonical with
            | some grole => some (grole == "admin" || action == "read")
            | none => none
          | none => none
        match groupDecision with
        | some b => b
        | none =>
          if w.wtype == "public" && action == "read" then true
          else
            match aclBestGrant db now workspace_id canonical action with
            | some g =>
              if g == "admin" then true
              else if g == "write" && (action == "read" || action == "write") then true
              else if g == "read" && action == "read" then true
              else false
            | none => false

end WorkspaceStorage

namespace PyStr

/-- Python whitespace: the characters stripped by `str.strip` / `str.rstrip`
and matched by the regex class `\s`. -/
def isPyWs (c : Char) : Bool :=
  c == ' ' || c == '\t' || c == '\n' || c == '\r' || c == '\x0b' || c == '\x0c'

/-- Model of `str.rstrip()`. -/
def rstrip (l : List Char) : List Char := (l.reverse.dropWhile isPyWs).reverse

/-- Model of `str.strip()`. -/
def pyStrip (l : List Char) : List Char := rstrip (l.dropWhile isPyWs)

/-- Whether `pat` starts the list `s`. -/
def startsWithList (pat s : List Char) : Bool := s.take pat.length == pat

/-- Model of the Python substring test `pat in s`. -/
def containsSub (pat : List Char) : List Char → Bool
  | [] => [] == pat
  | c :: rest => startsWithList pat (c :: rest) || containsSub pat rest

/-- Model of `str.lower()` for the ASCII inputs at hand. -/
def lowerList (l : List Char) : List Char := l.map Char.toLower

end PyStr

namespace FileSandbox

/-- A caller-supplied filesystem path: an absolute flag plus raw components
(separators already split off). -/
structure PyPath where
  absolute : Bool
  comps : List String
deriving DecidableEq, Repr

/-- One step of lexical path normalization: `.` and empty components vanish,
`..` removes the last kept component (and stays at the root when there is
none). -/
def resolveStep (acc : List String) (c : String) : List String :=
  if c = "." ∨ c = "" then acc
  else if c = ".." then acc.dropLast
  else acc ++ [c]

/-- Model of `Path(p).resolve()` in a process whose current directory is the
normalized absolute component list `cwd`: prepend `cwd` to relative paths and
normalize lexically.  Symbolic links are outside the model. -/
def pyResolve (cwd : List String) (p : PyPath) : List String :=
  ((if p.absolute then [] else cwd) ++ p.comps).foldl resolveStep []

/-- Model of `PurePath.suffix` on one name: the extension after the last dot,
empty when there is no dot, the only dot starts the name, or the dot is the
final character. -/
def suffixOfName (name : String) : String :=
  let cs := name.toList
  let tailRev := cs.reverse.takeWhile (fun c => c ≠ '.')
  if tailRev.length = cs.length then ""
  else
    let i := cs.length - 1 - tailRev.length
    if 0 < i ∧ i < cs.length - 1 then String.mk ('.' :: tailRev.reverse) else ""

/-- Model of `PurePath.suffix` on a resolved component list. -/
def pySuffix (comps : List String) : String :=
  match comps.getLast? with
  | none => ""
  | some name => suffixOfName name

/-- Model of `str.lower()` by charwise lowering (the extensions at hand are
ASCII). -/
def lowerStr (s : String) : String := { data := s.data.map Char.toLower }

/-- Sandbox configuration (`FileSandbox.__init__`, file_sandbox.py lines
40-49): `root` is stored in resolved (normalized absolute) form. -/
structure Sandbox where
  root : List String
  allowed_extensions : List String
  max_file_size_mb : Nat
deriving DecidableEq, Repr

/-- `self.max_bytes = self.max_file_size_mb * 1024 * 1024` (line 49). -/
def Sandbox.max_bytes (sb : Sandbox) : Nat := sb.max_file_size_mb * 1024 * 1024

/-- The check performed by `requested.relative_to(root)`: lexical ancestry of
resolved paths. -/
def underRoot (root requested : List String) : Bool :=
  requested.take root.length == root

/-- `FileSandbox._validate_path` (file_sandbox.py lines 51-83).  The error
payload is the `SecurityError` message (message bodies abridged). -/
def validate_path (sb : Sandbox) (cwd : List String) (p : PyPath) :
    Except String (List String) :=
  let requested := pyResolve cwd p
  if ¬ underRoot sb.root requested then
    .error "Path traversal blocked: path is outside sandbox"
  else if ¬ lowerStr (pySuffix requested) ∈ sb.allowed_extensions then
    .error "File type not allowed"
  else
    .ok requested

/-- `FileSandbox._validate_size` (lines 85-92); `nbytes` is the length of the
UTF-8 encoding of the content. -/
def validate_size (sb : Sandbox) (nbytes : Nat) : Except String Unit :=
  if nbytes > sb.max_bytes then .error "File size exceeds limit" else .ok ()

end FileSandbox

namespace Tools

open FileSandbox

/-- Python exception values relevant to the embedded tool handlers. -/
inductive PyExc where
  | valueError (msg : String)
  | fileNotFound (msg : String)
  | connectionError (msg : String)
  | osError (msg : String)
deriving DecidableEq, Repr

/-- Rendering `str(e)` of an exception. -/
def PyExc.message : PyExc → String
  | .valueError m => m
  | .fileNotFound m => m
  | .connectionError m => m
  | .osError m => m

/-- Rendering of the raw path in messages such as `File not found: {path}`. -/
def pathText (p : PyPath) : String :=
  (if p.absolute then "/" else "") ++ String.intercalate "/" p.comps

/-- Outcomes of the effectful primitives used by `read_file`. -/
structure ReadFileEnv where
  getSandbox : Except PyExc Sandbox
  cwd : List String
  file_path : PyPath
  readText : Except PyExc String
deriving Repr

/-- `read_file` (file_sandbox.py lines 138-162).  `get_sandbox()` at line 153
runs outside the try block, so its exceptions escape; a result of
`Except.error` means an exception escapes the handler. -/
def read_file (env : ReadFileEnv) : Except PyExc String :=
  match env.getSandbox with
  | .error e => .error e
  | .ok sb =>
    match validate_path sb env.cwd env.file_path with
    | .error m => .ok ("Security error: " ++ m)
    | .ok _ =>
      match env.readText with
      | .ok text => .ok text
      | .error (.fileNotFound _) => .ok ("File not found: " ++ pathText env.file_path)
      | .error e => .ok ("Error reading file: " ++ e.message)

/-- Outcomes of the effectful primitives used by `write_file`. -/
structure WriteFileEnv where
  getSandbox : Except PyExc Sandbox
  cwd : List String
  file_path : PyPath
  contentBytes : Nat
  contentChars : Nat
  mkdirAndWrite : Except PyExc Unit
deriving Repr

/-- `write_file` (file_sandbox.py lines 165-191). -/
def write_file (env : WriteFileEnv) : Except PyExc String :=
  match env.getSandbox with
  | .error e => .error e
  | .ok sb =>
    match validate_size sb env.contentBytes with
    | .error m => .ok ("Security error: " ++ m)
    | .ok _ =>
      match validate_path sb env.cwd env.file_path with
      | .error m => .ok ("Security error: " ++ m)
      | .ok _ =>
        match env.mkdirAndWrite with
        | .error e => .ok ("Error writing file: " ++ e.message)
        | .ok _ =>
          .ok ("File written: " ++ pathText env.file_path ++ " (" ++
            toString env.contentChars ++ " bytes)")

/-- Outcomes of the effectful primitives used by `list_files`. -/
structure ListFilesEnv where
  getSandbox : Except PyExc Sandbox
  cwd : List String
  directory : List String
  targetExists : Bool
  entries : Except PyExc (List (String × Bool))
deriving Repr

/-- `list_files` (file_sandbox.py lines 194-228); `entries` lists the names
produced by `iterdir()` with their is-directory flags. -/
def list_files (env : ListFilesEnv) : Except PyExc String :=
  match env.getSandbox with
  | .error e => .error e
  | .ok sb =>
    let target : PyPath := { absolute := true, comps := sb.root ++ env.directory }
    match validate_path sb env.cwd target with
    | .error m => .ok ("Security error: " ++ m)
    | .ok _ =>
      if ¬ env.targetExists then
        .ok ("Directory not found: " ++ String.intercalate "/" env.directory)
      else
        match env.entries with
        | .error e => .ok ("Error listing files: " ++ e.message)
        | .ok items =>
          let names := items.map (fun it => if it.2 then it.1 ++ "/" else it.1)
          .ok ("Files in files:\n" ++ String.intercalate "\n" (names.mergeSort (· ≤ ·)))

/-- A row of the reminders store as surfaced to the tools. -/
structure ReminderRow where
  id : Nat
  thread_id : String
  message : String
  due_time : Int
  status : String
  timezone : Option String := none
  is_recurring : Bool := false
deriving DecidableEq, Repr

/-- Outcomes of the effectful primitives used by `reminder_set`. -/
structure ReminderSetEnv where
  getStorage : Except PyExc Unit
  threadId : Option String
  parseTime : Except PyExc Int
  create : Except PyExc Nat
deriving Repr

/-- `reminder_set` (reminder_tools.py lines 248-299).  `_get_storage()` at
line 273 runs outside any try block; the parse at line 280 is guarded by
`except ValueError` only; `storage.create` is guarded by `except Exception`;
`_refresh_reminder_meta` swallows its own exceptions. -/
def reminder_set (env : ReminderSetEnv) : Except PyExc String :=
  match env.getStorage with
  | .error e => .error e
  | .ok _ =>
    match env.threadId with
    | none => .ok "Error: Could not determine conversation context for reminder."
    | some _ =>
      match env.parseTime with
      | .error (.valueError m) => .ok ("Error: " ++ m)
      | .error e => .error e
      | .ok due =>
        match env.create with
        | .error e => .ok ("Error: failed to save reminder: " ++ e.message)
        | .ok rid => .ok ("Reminder set for " ++ toString due ++ ". ID: " ++ toString rid)

/-- Outcomes of the effectful primitives used by `reminder_list`. -/
structure ReminderListEnv where
  getStorage : Except PyExc Unit
  threadId : Option String
  status : String
  listByThread : Except PyExc (List ReminderRow)
  recordCount : Except PyExc Unit
deriving Repr

/-- `reminder_list` (reminder_tools.py lines 302-343).  The call
`record_reminder_count` at line 333 runs outside any try block. -/
def reminder_list (env : ReminderListEnv) : Except PyExc String :=
  match env.getStorage with
  | .error e => .error e
  | .ok _ =>
    match env.threadId with
    | none => .ok "Error: Could not determine conversation context."
    | some _ =>
      if env.status ≠ "" ∧
          env.status ∉ (["pending", "sent", "cancelled", "failed"] : List String) then
        .ok "Invalid status. Use one of: pending, sent, cancelled, failed"
      else
        match env.listByThread with
        | .error e => .ok ("Error: failed to list reminders: " ++ e.message)
        | .ok reminders =>
          if reminders = [] then .ok "No reminders found."
          else
            match env.recordCount with
            | .error e => .error e
            | .ok _ =>
              .ok (String.intercalate "\n"
                (["ID Status Due Message"] ++ reminders.map (fun r =>
                  toString r.id ++ " " ++ r.status ++ " " ++ toString r.due_time ++
                    " " ++ r.message)))

/-- Outcomes of the effectful primitives used by `reminder_cancel`. -/
structure ReminderCancelEnv where
  getStorage : Except PyExc Unit
  threadId : Option String
  reminderId : Nat
  getById : Except PyExc (Option ReminderRow)
  cancel : Except PyExc Unit
deriving Repr

/-- `reminder_cancel` (reminder_tools.py lines 346-384). -/
def reminder_cancel (env : ReminderCancelEnv) : Except PyExc String :=
  match env.getStorage with
  | .error e => .error e
  | .ok _ =>
    match env.threadId with
    | none => .ok "Error: Could not determine conversation context."
    | some tid =>
      match env.getById with
      | .error e => .ok ("Error: failed to read reminder: " ++ e.message)
      | .ok none => .ok ("Reminder " ++ toString env.reminderId ++ " not found.")
      | .ok (some r) =>
        if r.thread_id ≠ tid then .ok "You can only cancel your own reminders."
        else if r.status ≠ "pending" then
          .ok ("Reminder " ++ toString env.reminderId ++ " is not pending (status: " ++
            r.status ++ ").")
        else
          match env.cancel with
          | .error e => .ok ("Error: failed to cancel reminder: " ++ e.message)
          | .ok _ => .ok ("Reminder " ++ toString env.reminderId ++ " cancelled.")

/-- Outcomes of the effectful primitives used by `reminder_edit`. -/
structure ReminderEditEnv where
  getStorage : Except PyExc Unit
  threadId : Option String
  reminderId : Nat
  message : String
  time : String
  getById : Except PyExc (Option ReminderRow)
  parseTime : Except PyExc Int
  update : Except PyExc (Option ReminderRow)
deriving Repr

/-- `reminder_edit` (reminder_tools.py lines 387-469).  The parse at line 435
is guarded by `except ValueError` only. -/
def reminder_edit (env : ReminderEditEnv) : Except PyExc String :=
  match env.getStorage with
  | .error e => .error e
  | .ok _ =>
    match env.threadId with
    | none => .ok "Error: Could not determine conversation context."
    | some tid =>
      match env.getById with
      | .error e => .ok ("Error: failed to read reminder: " ++ e.message)
      | .ok none => .ok ("Reminder " ++ toString env.reminderId ++ " not found.")
      | .ok (some r) =>
        if r.thread_id ≠ tid then .ok "You can only edit your own reminders."
        else if r.status ≠ "pending" then
          .ok ("Reminder " ++ toString env.reminderId ++ " is not pending (status: " ++
            r.status ++ ").")
        else
          match (if env.time ≠ "" then some env.parseTime else none) with
          | some (.error (.valueError m)) => .ok ("Error: " ++ m)
          | some (.error e) => .error e
          | _ =>
            match env.update with
            | .error e => .ok ("Error: failed to update reminder: " ++ e.message)
            | .ok none => .ok "Failed to update reminder."
            | .ok (some _) => .ok ("Reminder " ++ toString env.reminderId ++ " updated.")

end Tools

namespace LoopBreaker

open Assoc PyStr

/-- A tool-call argument dictionary: keys paired with the `str()` rendering of
their values. -/
abbrev Args := List (String × String)

/-- Distinct keys of a dict (`set(d.keys())`), in first-occurrence order. -/
def keysOf (a : Args) : List String := (a.map Prod.fst).dedup

/-- Right-biased dict merge `{**a, **b}` modelled up to lookup and key-set
semantics: entries of `a` whose key `b` lacks, then `b`. -/
def dictMerge (a b : Args) : Args :=
  (a.filter (fun p => (alookup p.1 b).isNone)) ++ b

/-- `ToolLoopBreaker._args_similarity` (tool_loop_breaker.py lines 60-95),
over rationals in place of machine floats. -/
def args_similarity (args1 args2 : Args) : ℚ :=
  if args1 = [] ∧ args2 = [] then 1
  else if args1 = [] ∨ args2 = [] then 0
  else
    let keys1 := keysOf args1
    let keys2 := keysOf args2
    if keys1 = [] ∨ keys2 = [] then 0
    else
      let shared := keys1.filter (fun k => k ∈ keys2)
      let total := (keys1 ++ keys2).dedup
      if total = [] then 0
      else
        let keySim : ℚ := (shared.length : ℚ) / (total.length : ℚ)
        let valueSim : ℚ :=
          if shared ≠ [] then
            (((shared.filter (fun k => alookup k args1 = alookup k args2)).length : ℚ) /
              (shared.length : ℚ))
          else 0
        3/10 * keySim + 7/10 * valueSim

/-- Breaker configuration (`ToolLoopBreaker.__init__`, lines 28-49). -/
structure BreakerConfig where
  max_retries : Nat := 3
  similarity_threshold : ℚ := 7/10
  time_window : ℚ := 30
deriving DecidableEq, Repr

/-- A record of the per-thread call history list. -/
structure CallRecord where
  tool_name : String
  args : Args
  kwargs : Args
  timestamp : ℚ
deriving DecidableEq, Repr

/-- `_cleanup_old_calls` (lines 51-58): keep calls with `ts > cutoff`. -/
def cleanup_old_calls (cfg : BreakerConfig) (history : List CallRecord)
    (current_time : ℚ) : List CallRecord :=
  history.filter (fun r => decide (current_time - cfg.time_window < r.timestamp))

/-- `_get_guidance` (lines 130-164); message bodies abridged to their leading
sentences. -/
def get_guidance (tool_name : String) : String :=
  if tool_name == "write_file" then
    "LOOP DETECTED: The agent is repeatedly trying to write a file with similar content."
  else if tool_name == "insert_tdb_table" || tool_name == "update_tdb_table" then
    "LOOP DETECTED: The agent is repeatedly trying to write to a database table."
  else if containsSub "search".toList (lowerList tool_name.toList) then
    "LOOP DETECTED: The agent is repeatedly searching with similar queries."
  else
    "LOOP DETECTED: The agent is repeatedly calling " ++ tool_name ++
      " with similar parameters."

/-- `_detect_loop` (tool_loop_breaker.py lines 97-128).  Note that line 119 of
the source computes `self._args_similarity(prev_all, prev_all)` — the previous
call's merged arguments compared with themselves — while the built and unused
`curr_all` holds the current call's merged arguments. -/
def detect_loop (cfg : BreakerConfig) (history : List CallRecord)
    (current_time : ℚ) (tool_name : String) (tool_args tool_kwargs : Args) :
    Bool × String :=
  let recent := cleanup_old_calls cfg history current_time
  let similar_calls := (recent.filter (fun prev =>
    prev.tool_name == tool_name &&
      (let prev_all := dictMerge prev.args prev.kwargs
       let _curr_all := dictMerge tool_args tool_kwargs
       let similarity := args_similarity prev_all prev_all
       decide (cfg.similarity_threshold ≤ similarity)))).length
  if similar_calls ≥ cfg.max_retries then (true, get_guidance tool_name)
  else (false, "")

end LoopBreaker

namespace FlowRunner

/-- Modelled from the spec: a `scheduled_flows` row (§3 ScheduledFlow); the
storage module `executive_assistant/storage/scheduled_flows.py` is not under
src/.  The `flow` field holds the JSON flow_spec payload. -/
structure FlowRow where
  id : Nat
  thread_id : String
  flow : String
  due_time : Int
  cron : Option Nat := none
  status : String := "pending"
  completed_at : Option Int := none
deriving DecidableEq, Repr

/-- The scheduled-flow table. -/
abbrev FlowStore := List FlowRow

/-- Modelled from the spec: `parse_cron_next(cron, t)` returns the next firing
instant of the schedule, strictly after `t` (§8 round-trip law and §6.4 cron
surface); `executive_assistant/utils/cron.py` is not under src/.  A schedule
is modelled by its firing interval in minutes, clamped to at least one. -/
def parse_cron_next (interval : Nat) (t : Int) : Int := t + ((max interval 1 : ℕ) : ℤ)

/-- Modelled from the spec: `storage.mark_started` (§4.7 firing transition
pending → running). -/
def mark_started (st : FlowStore) (id : Nat) : FlowStore :=
  st.map (fun r => if r.id = id then { r with status := "running" } else r)

/-- Modelled from the spec: `storage.mark_completed` (§4.7 transition
running → completed with a completion instant). -/
def mark_completed (st : FlowStore) (id : Nat) (t : Int) : FlowStore :=
  st.map (fun r =>
    if r.id = id then { r with status := "completed", completed_at := some t } else r)

/-- Modelled from the spec: `storage.create_next_instance(flow, next_due)`
inserts the successor row: a fresh-id pending copy of the flow due at
`next_due` (§4.7, §4.8 recurrence). -/
def create_next_instance (st : FlowStore) (flow : FlowRow) (freshId : Nat)
    (next_due : Int) : FlowStore :=
  st ++
    [{ flow with
       id := freshId, status := "pending", due_time := next_due,
       completed_at := none }]

/-- Storage states reached, in order, on the success path of `execute_flow`
(runner.py lines 157-192) for a flow whose spec carries a cron expression
(modelled by `interval`): mark started (line 158), run the agents (no
flow-store writes), mark completed at `tComplete` (line 179), send
notifications (no flow-store writes), then insert the successor due at
`parse_cron_next interval tCron` (lines 188-190), where the monotone clock
gives `tComplete ≤ tCron`. -/
def execute_flow_states (st : FlowStore) (flow : FlowRow) (freshId : Nat)
    (interval : Nat) (tComplete tCron : Int) : List FlowStore :=
  let s1 := mark_started st flow.id
  let s2 := mark_completed s1 flow.id tComplete
  let s3 := create_next_instance s2 flow freshId (parse_cron_next interval tCron)
  [st, s1, s2, s3]

/-- Whether `r` is a successor row of `flow`: a distinct pending instance of
the same flow payload on the same thread. -/
def isSuccessorRow (flow r : FlowRow) : Bool :=
  r.id != flow.id && r.thread_id == flow.thread_id && r.flow == flow.flow &&
    r.status == "pending"

/-- Whether the store holds row `id` with status completed. -/
def rowCompleted (st : FlowStore) (id : Nat) : Bool :=
  st.any (fun r => r.id == id && r.status == "completed")

/-- Successor rows of `flow` due strictly after `t`. -/
def successorsAfter (st : FlowStore) (flow : FlowRow) (t : Int) : List FlowRow :=
  st.filter (fun r => isSuccessorRow flow r && decide (t < r.due_time))

end FlowRunner

namespace Instincts

/-- The final clamp `max(0.0, min(1.0, x))` (injector.py line 235). -/
def clamp01 (x : ℚ) : ℚ := max 0 (min 1 x)

/-- `frequency_boost = min(0.15, occurrence_count * 0.03)` (line 214). -/
def frequency_boost (occurrence_count : Nat) : ℚ :=
  min (15/100) ((occurrence_count : ℚ) * (3/100))

/-- The `last_triggered` metadata as read at lines 217-226: absent, present
but unparseable, or parseable with a whole-day age. -/
inductive LastTrigger where
  | never
  | unparseable
  | daysAgo (d : Int)
deriving DecidableEq, Repr

/-- `staleness_penalty` (lines 217-226): `max(-0.2, -days * 0.01)` for a
parseable timestamp and `-0.1` otherwise. -/
def staleness_penalty : LastTrigger → ℚ
  | .never => -(1/10)
  | .unparseable => -(1/10)
  | .daysAgo d => max (-(2/10)) (-((d : ℚ) * (1/100)))

/-- `success_multiplier = max(0.8, success_rate)` (line 230). -/
def success_multiplier (success_rate : ℚ) : ℚ := max (8/10) success_rate

/-- The read-time confidence computed at lines 233-235: sum the additive
factors, multiply by the success multiplier, then clamp into [0, 1]. -/
def final_confidence (base : ℚ) (occurrence_count : Nat) (lt : LastTrigger)
    (success_rate : ℚ) : ℚ :=
  clamp01 ((base + frequency_boost occurrence_count + staleness_penalty lt) *
    success_multiplier success_rate)

/-- The formula as the claim states it: the clamp applied to the additive part
before the multiplication by the success factor. -/
def final_confidence_claim (base : ℚ) (occurrence_count : Nat) (lt : LastTrigger)
    (success_rate : ℚ) : ℚ :=
  clamp01 (base + frequency_boost occurrence_count + staleness_penalty lt) *
    success_multiplier success_rate

end Instincts

namespace Telegram

open PyStr

/-- `TelegramChannel.MAX_MESSAGE_LENGTH` (telegram.py line 120). -/
def MAX_MESSAGE_LENGTH : Nat := 4096

/-- Model of `content.split('\n')`: Python `str.split` with an explicit
separator, so the empty string yields `[""]` and separators at the ends yield
empty fields. -/
def splitOnNl : List Char → List (List Char)
  | [] => [[]]
  | c :: rest =>
    if c = '\n' then [] :: splitOnNl rest
    else
      match splitOnNl rest with
      | [] => [[c]]
      | l :: ls => (c :: l) :: ls

/-- The hard split `for i in range(0, len(line), maxLen): line[i:i+maxLen]`
(lines 173-174).  The fuel equals the line length: every round removes at
least one character because the slice width is positive in all uses. -/
def hardSplitGo (maxLen : Nat) : Nat → List Char → List (List Char)
  | 0, _ => []
  | fuel + 1, l =>
    if l = [] then []
    else l.take maxLen :: hardSplitGo maxLen fuel (l.drop maxLen)

/-- The list of forced slices of an over-long line. -/
def hardSplit (maxLen : Nat) (l : List Char) : List (List Char) :=
  hardSplitGo maxLen l.length l

/-- State of the accumulation loop of `_send_long_message`: the chunks
collected so far and the current chunk. -/
structure SplitState where
  chunks : List (List Char)
  cc : List Char
deriving DecidableEq, Repr

/-- One iteration of `for line in content.split('\n')` (telegram.py lines
166-179). -/
def splitStep (maxLen : Nat) (st : SplitState) (line : List Char) : SplitState :=
  if st.cc.length + line.length + 1 > maxLen then
    let chunks := if st.cc ≠ [] then st.chunks ++ [rstrip st.cc] else st.chunks
    if line.length > maxLen then
      { chunks := chunks ++ hardSplit maxLen line, cc := [] }
    else
      { chunks := chunks, cc := line ++ ['\n'] }
  else
    { chunks := st.chunks, cc := st.cc ++ line ++ ['\n'] }

/-- The chunk list built by `_send_long_message` (lines 163-183), including
the final flush. -/
def buildChunks (maxLen : Nat) (content : List Char) : List (List Char) :=
  let st := (splitOnNl content).foldl (splitStep maxLen) ⟨[], []⟩
  if st.cc ≠ [] then st.chunks ++ [rstrip st.cc] else st.chunks

/-- The chunks actually sent: the send loop at lines 186-193 skips empty
chunks. -/
def emittedChunks (maxLen : Nat) (content : List Char) : List (List Char) :=
  (buildChunks maxLen content).filter (fun c => c ≠ [])

/-- The string `content` consists of the given chunks in order, separated and
framed by filler runs every character of which satisfies `P`. -/
inductive Interleaved (P : Char → Bool) : List (List Char) → List Char → Prop
  | nil : ∀ s : List Char, (∀ c ∈ s, P c = true) → Interleaved P [] s
  | cons : ∀ (chunk : List Char) (cs : List (List Char)) (s rest : List Char),
      (∀ c ∈ s, P c = true) → Interleaved P cs rest →
      Interleaved P (chunk :: cs) (s ++ (chunk ++ rest))

/-- Invariant of the accumulation loop relating the state to the text
processed so far: either the current chunk is empty and the processed text is
the collected chunks interleaved with whitespace fillers, or the current
chunk is a verbatim tail of the processed text followed by the artificial
trailing newline added at line 177 or 179 of the source. -/
def SplitInv (st : SplitState) (T : List Char) : Prop :=
  (st.cc = [] ∧ Interleaved PyStr.isPyWs st.chunks T) ∨
  (∃ body I, st.cc = body ++ ['\n'] ∧ T = I ++ body ∧
    Interleaved PyStr.isPyWs st.chunks I)

/-- Size invariant of the accumulation loop: the current chunk is empty or
newline-terminated with at most maxLen + 1 characters, and every collected
chunk has at most maxLen characters. -/
def SplitSizeInv (maxLen : Nat) (st : SplitState) : Prop :=
  (st.cc = [] ∨ (∃ body, st.cc = body ++ ['\n'] ∧ st.cc.length ≤ maxLen + 1)) ∧
  ∀ ch ∈ st.chunks, ch.length ≤ maxLen

end Telegram

namespace ReminderTime

open PyStr

/-- Keyword list of `_has_explicit_date_context` (reminder_tools.py lines
63-70). -/
def dateKeywords : List (List Char) :=
  (["today", "tonight", "tomorrow", "yesterday", "next", "last", "in",
    "week", "month", "year", "monday", "tuesday", "wednesday", "thursday",
    "friday", "saturday", "sunday", "jan", "feb", "mar", "apr", "may", "jun",
    "jul", "aug", "sep", "oct", "nov", "dec", "-", "/"] : List String).map
    String.toList

/-- `_has_explicit_date_context` (lines 61-71): any keyword occurs as a
substring of the lowered expression. -/
def has_explicit_date_context (s : List Char) : Bool :=
  dateKeywords.any (fun w => containsSub w (lowerList s))

/-- Consume `\d{1,2}` greedily; on this pattern greedy matching agrees with
backtracking because a digit can satisfy no later regex atom. -/
def eatDigits12 : List Char → Option (List Char)
  | [] => none
  | [c] => if c.isDigit then some [] else none
  | c :: d :: rest =>
    if c.isDigit then (if d.isDigit then some rest else some (d :: rest)) else none

/-- Consume the optional group `(:\d{2})?`; when a colon is present but not
followed by two digits the group is skipped, and the stuck colon then fails
the remaining atoms exactly as the backtracking regex does. -/
def eatOptColonDigits (l : List Char) : List Char :=
  match l with
  | ':' :: a :: b :: rest => if a.isDigit && b.isDigit then rest else l
  | _ => l

/-- Consume the optional group `(am|pm)?`, case-insensitively. -/
def eatOptAmPm (l : List Char) : List Char :=
  match l with
  | a :: m :: rest =>
    if (a.toLower == 'a' || a.toLower == 'p') && m.toLower == 'm' then rest else l
  | _ => l

/-- Match `\d{1,2}(:\d{2})?\s*(am|pm)?$`. -/
def timeOnlyCore (l : List Char) : Bool :=
  match eatDigits12 l with
  | none => false
  | some r1 => eatOptAmPm ((eatOptColonDigits r1).dropWhile isPyWs) == []

/-- Consume the optional leading group `(at\s+)?`, case-insensitively. -/
def eatAt (l : List Char) : Option (List Char) :=
  match l with
  | a :: t :: c :: rest =>
    if a.toLower == 'a' && t.toLower == 't' && isPyWs c then
      some ((c :: rest).dropWhile isPyWs)
    else none
  | _ => none

/-- `_looks_like_time_only` (lines 74-76): the stripped expression matches
`^(at\s+)?\d{1,2}(:\d{2})?\s*(am|pm)?$`, case-insensitively. -/
def looks_like_time_only (s : List Char) : Bool :=
  let t := pyStrip s
  timeOnlyCore t ||
    (match eatAt t with
     | some r => timeOnlyCore r
     | none => false)

/-- One day of `timedelta(days=1)` in the minute-instant model. -/
def oneDay : Int := 1440

/-- `_adjust_time_only_to_future` (reminder_tools.py lines 79-83). -/
def adjust_time_only_to_future (parsed now : Int) (raw : List Char) : Int :=
  if decide (parsed < now) && ! has_explicit_date_context raw &&
      looks_like_time_only raw then
    parsed + oneDay
  else parsed

/-- The value `_parse_time_expression` returns once `dateparser.parse` has
produced `parsed` (reminder_tools.py lines 204-206 and 216-217);
`_align_datetime_timezone` is the identity in this naive-instant model. -/
def parse_time_expression_result (parsed now : Int) (time_str : List Char) : Int :=
  adjust_time_only_to_future parsed now time_str

end ReminderTime

namespace WorkspaceStorage

/-- The claim's grant lattice for one ACL permission, identical to the final
grant checks of `can_access` (workspace_storage.py lines 459-465):
admin permits everything, write permits read and write, read permits read. -/
def latticePermits (g action : String) : Bool :=
  g == "admin" || (g == "write" && (action == "read" || action == "write")) ||
    (g == "read" && action == "read")

/-- The claim's reading of the ACL stage: some unexpired grant to the user on
this workspace permits the action under the grant lattice. -/
def aclAllows (db : WDB) (now : Int) (workspace_id user_id action : String) : Bool :=
  db.workspace_acl.any (fun r =>
    r.workspace_id == workspace_id && r.target_user_id == user_id &&
    (match r.expires_at with | none => true | some e => decide (now < e)) &&
    latticePermits r.permission action)

end WorkspaceStorage

open Assoc WorkspaceStorage PyStr FileSandbox Tools LoopBreaker FlowRunner Instincts
open Telegram ReminderTime

section AssocLemmas

theorem alookup_upsert_self {α : Type} (k : String) (v : α) (l : List (String × α)) :
    alookup k (upsert k v l) = some v := by
  induction l with
  | nil => simp [upsert, alookup]
  | cons p rest ih =>
    by_cases h : p.1 = k
    · simp [upsert, h, alookup]
    · simp [upsert, h, alookup, ih]

theorem upsert_self_of_alookup {α : Type} (k : String) (v : α) (l : List (String × α))
    (h : alookup k l = some v) : upsert k v l = l := by
  induction l with
  | nil => simp [alookup] at h
  | cons p rest ih =>
    obtain ⟨a, b⟩ := p
    by_cases hk : a = k
    · simp [alookup, hk] at h
      simp [upsert, hk, ← h]
    · simp [alookup, hk] at h
      simp [upsert, hk, ih h]

theorem alookup_append {α : Type} (k : String) (l l' : List (String × α)) :
    alookup k (l ++ l') =
      (match alookup k l with
       | some v => some v
       | none => alookup k l') := by
  induction l with
  | nil => simp [alookup]
  | cons p rest ih =>
    by_cases hk : p.1 = k
    · simp [alookup, hk]
    · simp [alookup, hk, ih]

end AssocLemmas

section C2AliasResolution

/-- C2: on the two-element alias cycle a → b → a, `resolve_alias_chain` run on
"a" returns "b" — not the original input — and applying it twice yields "a",
so it is not idempotent; this contradicts both the claim and the function's
own comment "Circular reference detected, return the original". -/
theorem resolve_alias_chain_cycle_eval :
    resolve_alias_chain [("a", "b"), ("b", "a")] "a" = "b" ∧
    resolve_alias_chain [("a", "b"), ("b", "a")]
      (resolve_alias_chain [("a", "b"), ("b", "a")] "a") = "a" ∧
    resolve_alias_chain [("a", "b"), ("b", "a")]
        (resolve_alias_chain [("a", "b"), ("b", "a")] "a") ≠
      resolve_alias_chain [("a", "b"), ("b", "a")] "a" := by
  refine ⟨by decide, by decide, by decide⟩

end C2AliasResolution

section C8InstinctConfidence

/-- C8 counterexample: with base 1, five occurrences, a same-day trigger and
success rate 0.8, the code computes clamp(1.15 × 0.8) = 0.92 while the
claim's formula clamp(1.15) × 0.8 = 0.8; the clamp is applied after the
multiplication, not before. -/
theorem instinct_confidence_clamp_order_counterexample :
    final_confidence 1 5 (.daysAgo 0) (4/5) = 23/25 ∧
    final_confidence_claim 1 5 (.daysAgo 0) (4/5) = 4/5 ∧
    final_confidence 1 5 (.daysAgo 0) (4/5) ≠
      final_confidence_claim 1 5 (.daysAgo 0) (4/5) := by
  have h1 : final_confidence 1 5 (.daysAgo 0) (4/5) = 23/25 := by
    norm_num [final_confidence, clamp01, frequency_boost, staleness_penalty,
      success_multiplier, min_def, max_def]
  have h2 : final_confidence_claim 1 5 (.daysAgo 0) (4/5) = 4/5 := by
    norm_num [final_confidence_claim, clamp01, frequency_boost, staleness_penalty,
      success_multiplier, min_def, max_def]
  refine ⟨h1, h2, ?_⟩
  rw [h1, h2]
  norm_num

/-- C8 (amended): the injected confidence equals
clamp((base + min(0.15, 0.03·occ) + staleness) × max(0.8, success_rate)) with
the clamp applied to the product; it always lies in [0, 1]; and it agrees with
the claim's clamp-before-multiplying formula whenever the additive part
already lies in [0, 1] and the success rate is at most 1. -/
theorem instinct_confidence_read_time (base s : ℚ) (occ : ℕ) (lt : LastTrigger) :
    final_confidence base occ lt s =
      clamp01 ((base + frequency_boost occ + staleness_penalty lt) *
        success_multiplier s) ∧
    0 ≤ final_confidence base occ lt s ∧
    final_confidence base occ lt s ≤ 1 ∧
    (0 ≤ base + frequency_boost occ + staleness_penalty lt →
      base + frequency_boost occ + staleness_penalty lt ≤ 1 → s ≤ 1 →
      final_confidence base occ lt s = final_confidence_claim base occ lt s) := by
  refine ⟨rfl, le_max_left _ _, ?_, ?_⟩
  · exact max_le (by norm_num) (min_le_left _ _)
  · intro h0 h1 hs
    have hm0 : (0 : ℚ) ≤ success_multiplier s := le_trans (by norm_num) (le_max_left _ _)
    have hm1 : success_multiplier s ≤ 1 := max_le (by norm_num) hs
    set A := base + frequency_boost occ + staleness_penalty lt with hA
    have hp0 : 0 ≤ A * success_multiplier s := mul_nonneg h0 hm0
    have hp1 : A * success_multiplier s ≤ 1 := by
      calc A * success_multiplier s ≤ 1 * 1 :=
            mul_le_mul h1 hm1 hm0 (by norm_num)
        _ = 1 := by norm_num
    have hclampA : clamp01 A = A := by
      unfold clamp01
      rw [min_eq_right h1, max_eq_right h0]
    have hclampP : clamp01 (A * success_multiplier s) = A * success_multiplier s := by
      unfold clamp01
      rw [min_eq_right hp1, max_eq_right hp0]
    unfold final_confidence final_confidence_claim
    rw [← hA, hclampP, hclampA]

/-- C8 witness: a concrete instance where the additive part lies in [0, 1]
and the two formulas agree. -/
theorem instinct_confidence_read_time_witness :
    (0 : ℚ) ≤ 1/2 + frequency_boost 0 + staleness_penalty .never ∧
    1/2 + frequency_boost 0 + staleness_penalty .never ≤ 1 ∧
    final_confidence (1/2) 0 .never (9/10) =
      final_confidence_claim (1/2) 0 .never (9/10) :=
  ⟨by norm_num [frequency_boost, staleness_penalty, min_def],
    by norm_num [frequency_boost, staleness_penalty, min_def],
    (instinct_confidence_read_time (1/2) (9/10) 0 .never).2.2.2
      (by norm_num [frequency_boost, staleness_penalty, min_def])
      (by norm_num [frequency_boost, staleness_penalty, min_def])
      (by norm_num)⟩

end C8InstinctConfidence

section C10TimeOnly

/-- C10: a time-only expression without explicit date context whose parsed
instant lies strictly in the past is advanced by exactly one day; an
expression with date context, a future or present parse, or a non-time-only
shape is returned unchanged; and "11:22pm" is time-only without date
context. -/
theorem time_only_roll_forward (parsed now : Int) (raw : List Char) :
    (looks_like_time_only raw = true → has_explicit_date_context raw = false →
      parsed < now →
      parse_time_expression_result parsed now raw = parsed + oneDay) ∧
    (has_explicit_date_context raw = true →
      parse_time_expression_result parsed now raw = parsed) ∧
    (now ≤ parsed → parse_time_expression_result parsed now raw = parsed) ∧
    (looks_like_time_only raw = false →
      parse_time_expression_result parsed now raw = parsed) ∧
    looks_like_time_only ("11:22pm".toList) = true ∧
    has_explicit_date_context ("11:22pm".toList) = false := by
  refine ⟨?_, ?_, ?_, ?_, by decide, by decide⟩
  · intro h1 h2 h3
    simp [parse_time_expression_result, adjust_time_only_to_future, h1, h2, h3]
  · intro h
    simp [parse_time_expression_result, adjust_time_only_to_future, h]
  · intro h
    simp [parse_time_expression_result, adjust_time_only_to_future, not_lt.mpr h]
  · intro h
    simp [parse_time_expression_result, adjust_time_only_to_future, h]

/-- C10 witness: "11:22pm" parsed to instant 100 with now 200 rolls forward
by one day. -/
theorem time_only_roll_forward_witness :
    looks_like_time_only ("11:22pm".toList) = true ∧
    has_explicit_date_context ("11:22pm".toList) = false ∧
    (100 : Int) < 200 ∧
    parse_time_expression_result 100 200 ("11:22pm".toList) = 100 + oneDay :=
  ⟨by decide, by decide, by decide,
    (time_only_roll_forward 100 200 ("11:22pm".toList)).1 (by decide) (by decide)
      (by decide)⟩

end C10TimeOnly

section C6LoopBreaker

/-- C6: with three recent `write_file` calls carrying arguments
content = "a" inside the 30-second window, a current call whose arguments
content = "b", path = "x" have similarity 3/20 < 7/10 to every recent call is
still refused: line 119 of the source compares each previous call's signature
with itself, so the current call's arguments never enter the similarity. -/
theorem detect_loop_argument_insensitive_eval :
    (detect_loop {}
      (List.replicate 3 ⟨"write_file", [("content", "a")], [], (100 : ℚ)⟩)
      100 "write_file" [("content", "b"), ("path", "x")] []).1 = true ∧
    args_similarity (dictMerge [("content", "a")] [])
      (dictMerge [("content", "b"), ("path", "x")] []) = 3/20 ∧
    (3/20 : ℚ) < 7/10 := by
  have hself : args_similarity (dictMerge [("content", "a")] [])
      (dictMerge [("content", "a")] []) = 1 := by
    norm_num [args_similarity, keysOf, dictMerge, alookup]
  have hd : decide ((7 : ℚ)/10 ≤ args_similarity (dictMerge [("content", "a")] [])
      (dictMerge [("content", "a")] [])) = true := by
    rw [hself]
    norm_num
  refine ⟨?_, ?_, by norm_num⟩
  · simp +decide [detect_loop, cleanup_old_calls, List.replicate, List.filter, hd]
  · simp +decide [args_similarity, keysOf, dictMerge, alookup]
    norm_num

end C6LoopBreaker

section C4ToolBoundary

theorem read_file_ok (e : ReadFileEnv) (h : e.getSandbox.isOk = true) :
    ∃ s, read_file e = .ok s := by
  cases hsb : e.getSandbox with
  | error ex => rw [hsb] at h; simp [Except.isOk, Except.toBool] at h
  | ok sb =>
    cases hv : validate_path sb e.cwd e.file_path with
    | error m =>
      simp only [read_file, hsb, hv]
      exact ⟨_, rfl⟩
    | ok p =>
      cases hr : e.readText with
      | ok t =>
        simp only [read_file, hsb, hv, hr]
        exact ⟨_, rfl⟩
      | error ex =>
        cases ex <;> simp only [read_file, hsb, hv, hr] <;> exact ⟨_, rfl⟩

theorem write_file_ok (e : WriteFileEnv) (h : e.getSandbox.isOk = true) :
    ∃ s, write_file e = .ok s := by
  cases hsb : e.getSandbox with
  | error ex => rw [hsb] at h; simp [Except.isOk, Except.toBool] at h
  | ok sb =>
    cases hs : validate_size sb e.contentBytes with
    | error m =>
      simp only [write_file, hsb, hs]
      exact ⟨_, rfl⟩
    | ok u =>
      cases hv : validate_path sb e.cwd e.file_path with
      | error m =>
        simp only [write_file, hsb, hs, hv]
        exact ⟨_, rfl⟩
      | ok p =>
        cases hw : e.mkdirAndWrite with
        | error ex =>
          simp only [write_file, hsb, hs, hv, hw]
          exact ⟨_, rfl⟩
        | ok u2 =>
          simp only [write_file, hsb, hs, hv, hw]
          exact ⟨_, rfl⟩

theorem list_files_ok (e : ListFilesEnv) (h : e.getSandbox.isOk = true) :
    ∃ s, list_files e = .ok s := by
  cases hsb : e.getSandbox with
  | error ex => rw [hsb] at h; simp [Except.isOk, Except.toBool] at h
  | ok sb =>
    cases hv : validate_path sb e.cwd { absolute := true, comps := sb.root ++ e.directory } with
    | error m =>
      simp only [list_files, hsb, hv]
      exact ⟨_, rfl⟩
    | ok p =>
      by_cases hex : e.targetExists = true
      · cases he : e.entries with
        | error ex =>
          simp only [list_files, hsb, hv, hex, he]
          simp
        | ok items =>
          simp only [list_files, hsb, hv, hex, he]
          simp
      · simp only [list_files, hsb, hv]
        simp [hex]

theorem reminder_set_ok (e : ReminderSetEnv) (h : e.getStorage.isOk = true)
    (hp : ∀ ex, e.parseTime = .error ex → ∃ m, ex = PyExc.valueError m) :
    ∃ s, reminder_set e = .ok s := by
  cases hst : e.getStorage with
  | error ex => rw [hst] at h; simp [Except.isOk, Except.toBool] at h
  | ok u =>
    cases ht : e.threadId with
    | none =>
      simp only [reminder_set, hst, ht]
      exact ⟨_, rfl⟩
    | some tid =>
      cases hpt : e.parseTime with
      | error ex =>
        obtain ⟨m, hm⟩ := hp ex hpt
        subst hm
        simp only [reminder_set, hst, ht, hpt]
        exact ⟨_, rfl⟩
      | ok due =>
        cases hc : e.create with
        | error ex =>
          cases ex <;> simp only [reminder_set, hst, ht, hpt, hc] <;> exact ⟨_, rfl⟩
        | ok rid =>
          simp only [reminder_set, hst, ht, hpt, hc]
          exact ⟨_, rfl⟩

theorem reminder_list_ok (e : ReminderListEnv) (h : e.getStorage.isOk = true)
    (hr : e.recordCount.isOk = true) :
    ∃ s, reminder_list e = .ok s := by
  cases hst : e.getStorage with
  | error ex => rw [hst] at h; simp [Except.isOk, Except.toBool] at h
  | ok u =>
    cases ht : e.threadId with
    | none =>
      simp only [reminder_list, hst, ht]
      exact ⟨_, rfl⟩
    | some tid =>
      by_cases hs : e.status ≠ "" ∧
          e.status ∉ (["pending", "sent", "cancelled", "failed"] : List String)
      · simp only [reminder_list, hst, ht]
        rw [if_pos hs]
        exact ⟨_, rfl⟩
      · cases hl : e.listByThread with
        | error ex =>
          simp only [reminder_list, hst, ht, hl]
          rw [if_neg hs]
          exact ⟨_, rfl⟩
        | ok rs =>
          by_cases hrs : rs = []
          · simp only [reminder_list, hst, ht, hl]
            rw [if_neg hs, if_pos hrs]
            exact ⟨_, rfl⟩
          · cases hrc : e.recordCount with
            | error ex => rw [hrc] at hr; simp [Except.isOk, Except.toBool] at hr
            | ok u2 =>
              simp only [reminder_list, hst, ht, hl, hrc]
              rw [if_neg hs, if_neg hrs]
              exact ⟨_, rfl⟩

theorem reminder_cancel_ok (e : ReminderCancelEnv) (h : e.getStorage.isOk = true) :
    ∃ s, reminder_cancel e = .ok s := by
  cases hst : e.getStorage with
  | error ex => rw [hst] at h; simp [Except.isOk, Except.toBool] at h
  | ok u =>
    cases ht : e.threadId with
    | none =>
      simp only [reminder_cancel, hst, ht]
      exact ⟨_, rfl⟩
    | some tid =>
      cases hg : e.getById with
      | error ex =>
        simp only [reminder_cancel, hst, ht, hg]
        exact ⟨_, rfl⟩
      | ok orow =>
        cases orow with
        | none =>
          simp only [reminder_cancel, hst, ht, hg]
          exact ⟨_, rfl⟩
        | some r =>
          by_cases h1 : r.thread_id ≠ tid
          · simp only [reminder_cancel, hst, ht, hg]
            rw [if_pos h1]
            exact ⟨_, rfl⟩
          · by_cases h2 : r.status ≠ "pending"
            · simp only [reminder_cancel, hst, ht, hg]
              rw [if_neg h1, if_pos h2]
              exact ⟨_, rfl⟩
            · cases hc : e.cancel with
              | error ex =>
                simp only [reminder_cancel, hst, ht, hg, hc]
                rw [if_neg h1, if_neg h2]
                exact ⟨_, rfl⟩
              | ok u2 =>
                simp only [reminder_cancel, hst, ht, hg, hc]
                rw [if_neg h1, if_neg h2]
                exact ⟨_, rfl⟩

theorem reminder_edit_ok (e : ReminderEditEnv) (h : e.getStorage.isOk = true)
    (hp : ∀ ex, e.parseTime = .error ex → ∃ m, ex = PyExc.valueError m) :
    ∃ s, reminder_edit e = .ok s := by
  cases hst : e.getStorage with
  | error ex => rw [hst] at h; simp [Except.isOk, Except.toBool] at h
  | ok u =>
    cases ht : e.threadId with
    | none =>
      simp only [reminder_edit, hst, ht]
      exact ⟨_, rfl⟩
    | some tid =>
      cases hg : e.getById with
      | error ex =>
        simp only [reminder_edit, hst, ht, hg]
        exact ⟨_, rfl⟩
      | ok orow =>
        cases orow with
        | none =>
          simp only [reminder_edit, hst, ht, hg]
          exact ⟨_, rfl⟩
        | some r =>
          by_cases h1 : r.thread_id ≠ tid
          · simp only [reminder_edit, hst, ht, hg]
            rw [if_pos h1]
            exact ⟨_, rfl⟩
          · by_cases h2 : r.status ≠ "pending"
            · simp only [reminder_edit, hst, ht, hg]
              rw [if_neg h1, if_pos h2]
              exact ⟨_, rfl⟩
            · by_cases h3 : e.time ≠ ""
              · cases hpt : e.parseTime with
                | error ex =>
                  obtain ⟨m, hm⟩ := hp ex hpt
                  subst hm
                  simp only [reminder_edit, hst, ht, hg, hpt]
                  rw [if_neg h1, if_neg h2, if_pos h3]
                  exact ⟨_, rfl⟩
                | ok due =>
                  cases hu : e.update with
                  | error ex =>
                    simp only [reminder_edit, hst, ht, hg, hpt, hu]
                    rw [if_neg h1, if_neg h2, if_pos h3]
                    exact ⟨_, rfl⟩
                  | ok ou =>
                    cases ou <;> simp only [reminder_edit, hst, ht, hg, hpt, hu] <;>
                      rw [if_neg h1, if_neg h2, if_pos h3] <;> exact ⟨_, rfl⟩
              · cases hu : e.update with
                | error ex =>
                  simp only [reminder_edit, hst, ht, hg, hu]
                  rw [if_neg h1, if_neg h2, if_neg h3]
                  exact ⟨_, rfl⟩
                | ok ou =>
                  cases ou <;> simp only [reminder_edit, hst, ht, hg, hu] <;>
                    rw [if_neg h1, if_neg h2, if_neg h3] <;> exact ⟨_, rfl⟩

/-- C4 counterexample: a storage failure raised while acquiring the reminder
storage handle (line 273 of reminder_tools.py, before any try block) escapes
`reminder_set` as an exception instead of being rendered as an error
string. -/
theorem reminder_set_storage_failure_escapes :
    reminder_set
        { getStorage := .error (.connectionError "connection refused"),
          threadId := some "telegram:1", parseTime := .ok 0, create := .ok 1 } =
      .error (.connectionError "connection refused") := rfl

/-- C4 (amended): provided the storage handle or sandbox acquisition that
each handler performs before its try block succeeds, the time parser fails
only with ValueError, and (for reminder_list) the meta-registry count
recording succeeds, every built-in handler returns a string, with each
failure rendered as a single-line error string; a failure in those
pre-try-block steps propagates out of the handler. -/
theorem tool_handlers_error_boundary
    (e1 : ReadFileEnv) (e2 : WriteFileEnv) (e3 : ListFilesEnv) (e4 : ReminderSetEnv)
    (e5 : ReminderListEnv) (e6 : ReminderCancelEnv) (e7 : ReminderEditEnv)
    (h1 : e1.getSandbox.isOk = true) (h2 : e2.getSandbox.isOk = true)
    (h3 : e3.getSandbox.isOk = true) (h4 : e4.getStorage.isOk = true)
    (h4p : ∀ ex, e4.parseTime = .error ex → ∃ m, ex = PyExc.valueError m)
    (h5 : e5.getStorage.isOk = true) (h5r : e5.recordCount.isOk = true)
    (h6 : e6.getStorage.isOk = true) (h7 : e7.getStorage.isOk = true)
    (h7p : ∀ ex, e7.parseTime = .error ex → ∃ m, ex = PyExc.valueError m) :
    (∃ s, read_file e1 = .ok s) ∧ (∃ s, write_file e2 = .ok s) ∧
    (∃ s, list_files e3 = .ok s) ∧ (∃ s, reminder_set e4 = .ok s) ∧
    (∃ s, reminder_list e5 = .ok s) ∧ (∃ s, reminder_cancel e6 = .ok s) ∧
    (∃ s, reminder_edit e7 = .ok s) :=
  ⟨read_file_ok e1 h1, write_file_ok e2 h2, list_files_ok e3 h3,
    reminder_set_ok e4 h4 h4p, reminder_list_ok e5 h5 h5r,
    reminder_cancel_ok e6 h6, reminder_edit_ok e7 h7 h7p⟩

/-- C4 witness: concrete environments in which every handler returns a
string. -/
theorem tool_handlers_error_boundary_witness :
    (∃ s, read_file
      { getSandbox := .ok ⟨["data", "files"], [".txt"], 10⟩, cwd := ["data", "files"],
        file_path := ⟨false, ["x.txt"]⟩, readText := .ok "hello" } = .ok s) ∧
    (∃ s, write_file
      { getSandbox := .ok ⟨["data", "files"], [".txt"], 10⟩, cwd := ["data", "files"],
        file_path := ⟨false, ["..", "x.txt"]⟩, contentBytes := 5, contentChars := 5,
        mkdirAndWrite := .ok () } = .ok s) ∧
    (∃ s, list_files
      { getSandbox := .ok ⟨["data", "files"], [".txt"], 10⟩, cwd := ["data", "files"],
        directory := ["sub"], targetExists := false, entries := .ok [] } = .ok s) ∧
    (∃ s, reminder_set
      { getStorage := .ok (), threadId := none,
        parseTime := .error (.valueError "Could not parse time expression"),
        create := .ok 1 } = .ok s) ∧
    (∃ s, reminder_list
      { getStorage := .ok (), threadId := some "t", status := "bogus",
        listByThread := .error (.connectionError "down"), recordCount := .ok () } =
          .ok s) ∧
    (∃ s, reminder_cancel
      { getStorage := .ok (), threadId := some "t", reminderId := 7,
        getById := .ok none, cancel := .error (.connectionError "down") } = .ok s) ∧
    (∃ s, reminder_edit
      { getStorage := .ok (), threadId := some "t", reminderId := 7, message := "",
        time := "tomorrow", getById := .ok (some ⟨7, "t", "m", 0, "pending", none, false⟩),
        parseTime := .error (.valueError "bad"), update := .ok none } = .ok s) :=
  tool_handlers_error_boundary _ _ _ _ _ _ _
    rfl rfl rfl rfl (fun ex h => by cases h; exact ⟨_, rfl⟩) rfl rfl rfl rfl
    (fun ex h => by cases h; exact ⟨_, rfl⟩)

end C4ToolBoundary

section C7RecurringFlow

/-- C7 counterexample: in the success trace of `execute_flow` for a recurring
flow there is a reachable state — after `mark_completed` at line 179 and
before `create_next_instance` at line 190 — in which the current row is
completed yet no successor row exists, so the successor is not inserted
before completion. -/
theorem recurring_flow_completes_before_successor :
    ¬ (∀ s ∈ execute_flow_states [⟨1, "t", "spec", 0, some 60, "pending", none⟩]
          ⟨1, "t", "spec", 0, some 60, "pending", none⟩ 2 60 10 20,
        rowCompleted s 1 = true →
          s.any (isSuccessorRow ⟨1, "t", "spec", 0, some 60, "pending", none⟩) = true) ∧
    rowCompleted
      (mark_completed
        (mark_started [⟨1, "t", "spec", 0, some 60, "pending", none⟩] 1) 1 10) 1 = true ∧
    (mark_completed
        (mark_started [⟨1, "t", "spec", 0, some 60, "pending", none⟩] 1) 1 10).any
      (isSuccessorRow ⟨1, "t", "spec", 0, some 60, "pending", none⟩) = false := by
  refine ⟨by decide, by decide, by decide⟩

/-- C7 (amended): the successor row is inserted immediately after — not
before — the current row is marked complete: in the state following
`mark_completed` no successor row exists yet, and in the final state exactly
the one successor inserted by `create_next_instance` exists, pending, with
`due_time = parse_cron_next cron now` strictly greater than the completion
instant. -/
theorem recurring_flow_successor_spec
    (st : FlowStore) (flow : FlowRow) (freshId : Nat) (interval : Nat)
    (tComplete tCron : Int)
    (hNo : ∀ r ∈ st, isSuccessorRow flow r = false)
    (hFresh : freshId ≠ flow.id)
    (hT : tComplete ≤ tCron) :
    (mark_completed (mark_started st flow.id) flow.id tComplete).filter
        (isSuccessorRow flow) = [] ∧
    successorsAfter
        (create_next_instance (mark_completed (mark_started st flow.id) flow.id tComplete)
          flow freshId (parse_cron_next interval tCron)) flow tComplete =
      [{ flow with
          id := freshId, status := "pending",
          due_time := parse_cron_next interval tCron, completed_at := none }] ∧
    execute_flow_states st flow freshId interval tComplete tCron =
      [st, mark_started st flow.id,
        mark_completed (mark_started st flow.id) flow.id tComplete,
        create_next_instance (mark_completed (mark_started st flow.id) flow.id tComplete)
          flow freshId (parse_cron_next interval tCron)] := by
  have key : ∀ r ∈ mark_completed (mark_started st flow.id) flow.id tComplete,
      isSuccessorRow flow r = false := by
    intro r hr
    simp only [mark_completed, mark_started, List.map_map, List.mem_map] at hr
    obtain ⟨r0, hr0, hmap⟩ := hr
    by_cases hid : r0.id = flow.id
    · subst hmap
      simp only [Function.comp, hid, if_pos rfl]
      simp [isSuccessorRow, hid]
    · subst hmap
      simp only [Function.comp, if_neg hid]
      exact hNo r0 hr0
  have hnewSucc : isSuccessorRow flow
      { flow with
        id := freshId, status := "pending",
        due_time := parse_cron_next interval tCron, completed_at := none } = true := by
    simp [isSuccessorRow, bne, hFresh]
  have hdue : decide (tComplete <
      parse_cron_next interval tCron) = true := by
    simp only [parse_cron_next, decide_eq_true_eq]
    generalize hk : max interval 1 = k
    have h1 : 1 ≤ k := hk ▸ Nat.le_max_right interval 1
    omega
  refine ⟨List.filter_eq_nil_iff.mpr (fun r hr => by simp [key r hr]), ?_, rfl⟩
  unfold successorsAfter create_next_instance
  rw [List.filter_append]
  rw [List.filter_eq_nil_iff.mpr (fun r hr => by simp [key r hr])]
  simp [List.filter, hnewSucc, hdue]

/-- C7 witness: a concrete recurring flow whose successor facts follow from
the amended theorem. -/
theorem recurring_flow_successor_spec_witness :
    (mark_completed
        (mark_started [⟨1, "t", "spec", 0, some 60, "pending", none⟩] 1) 1 10).filter
      (isSuccessorRow ⟨1, "t", "spec", 0, some 60, "pending", none⟩) = [] ∧
    successorsAfter
        (create_next_instance
          (mark_completed
            (mark_started [⟨1, "t", "spec", 0, some 60, "pending", none⟩] 1) 1 10)
          ⟨1, "t", "spec", 0, some 60, "pending", none⟩ 2 (parse_cron_next 60 20))
        ⟨1, "t", "spec", 0, some 60, "pending", none⟩ 10 =
      [⟨2, "t", "spec", parse_cron_next 60 20, some 60, "pending", none⟩] ∧
    execute_flow_states [⟨1, "t", "spec", 0, some 60, "pending", none⟩]
        ⟨1, "t", "spec", 0, some 60, "pending", none⟩ 2 60 10 20 =
      [[⟨1, "t", "spec", 0, some 60, "pending", none⟩],
        mark_started [⟨1, "t", "spec", 0, some 60, "pending", none⟩] 1,
        mark_completed
          (mark_started [⟨1, "t", "spec", 0, some 60, "pending", none⟩] 1) 1 10,
        create_next_instance
          (mark_completed
            (mark_started [⟨1, "t", "spec", 0, some 60, "pending", none⟩] 1) 1 10)
          ⟨1, "t", "spec", 0, some 60, "pending", none⟩ 2 (parse_cron_next 60 20)] :=
  recurring_flow_successor_spec [⟨1, "t", "spec", 0, some 60, "pending", none⟩]
    ⟨1, "t", "spec", 0, some 60, "pending", none⟩ 2 60 10 20
    (by decide) (by decide) (by decide)

end C7RecurringFlow

section C1ThreadWorkspace

theorem ensure_user_mem (db : WDB) (u : String) : u ∈ (ensure_user db u).users := by
  unfold ensure_user
  by_cases h : u ∈ db.users
  · simp only [if_pos h]
    exact h
  · simp [h]

theorem ensure_user_fields (db : WDB) (u : String) :
    (ensure_user db u).user_aliases = db.user_aliases ∧
    (ensure_user db u).user_workspaces = db.user_workspaces ∧
    (ensure_user db u).thread_workspaces = db.thread_workspaces := by
  unfold ensure_user
  by_cases h : u ∈ db.users <;> simp [h]

theorem ensure_user_workspace_found (db : WDB) (f u : String) :
    alookup u (ensure_user_workspace db f u).2.user_workspaces =
      some (ensure_user_workspace db f u).1 := by
  unfold ensure_user_workspace
  cases hw : get_user_workspace (ensure_user db u) u with
  | some w =>
    simp only [hw]
    unfold get_user_workspace at hw
    exact hw
  | none =>
    simp only [hw]
    unfold get_user_workspace at hw
    rw [alookup_append, hw]
    simp [alookup]

theorem ensure_user_workspace_fields (db : WDB) (f u : String) :
    (ensure_user_workspace db f u).2.user_aliases = db.user_aliases ∧
    (ensure_user_workspace db f u).2.thread_workspaces = db.thread_workspaces ∧
    u ∈ (ensure_user_workspace db f u).2.users := by
  unfold ensure_user_workspace
  cases hw : get_user_workspace (ensure_user db u) u with
  | some w =>
    simp only [hw]
    exact ⟨(ensure_user_fields db u).1, (ensure_user_fields db u).2.2, ensure_user_mem db u⟩
  | none =>
    simp only [hw]
    exact ⟨(ensure_user_fields db u).1, (ensure_user_fields db u).2.2, ensure_user_mem db u⟩

theorem ensure_user_workspace_stable (db : WDB) (f u : String) (w : String)
    (hmem : u ∈ db.users) (hws : alookup u db.user_workspaces = some w) :
    ensure_user_workspace db f u = (w, db) := by
  have he : ensure_user db u = db := by
    unfold ensure_user
    simp [hmem]
  simp [ensure_user_workspace, get_user_workspace, he, hws]

theorem ensure_thread_workspace_pair (db : WDB) (f t u : String) :
    ensure_thread_workspace db f t u =
      ((ensure_user_workspace db f (resolve_user_id db u)).1,
        { (ensure_user_workspace db f (resolve_user_id db u)).2 with
          thread_workspaces :=
            upsert t (ensure_user_workspace db f (resolve_user_id db u)).1
              (ensure_user_workspace db f (resolve_user_id db u)).2.thread_workspaces }) :=
  rfl

/-- C1 counterexample: after thread t is bound to user u1's workspace w1, a
second `ensure_thread_workspace` call with u2 — whose canonical workspace is
w2 — returns w2, not w1, and the `ON CONFLICT (thread_id) DO UPDATE` re-points
the stored mapping from w1 to w2: the first bind does not win. -/
theorem ensure_thread_workspace_rebind_counterexample :
    (ensure_thread_workspace
        { users := ["u1", "u2"], user_workspaces := [("u1", "w1"), ("u2", "w2")] }
        "f1" "t" "u1").1 = "w1" ∧
    (ensure_thread_workspace
        { users := ["u1", "u2"], user_workspaces := [("u1", "w1"), ("u2", "w2")] }
        "f1" "t" "u1").2.thread_workspaces = [("t", "w1")] ∧
    (ensure_thread_workspace
        (ensure_thread_workspace
          { users := ["u1", "u2"], user_workspaces := [("u1", "w1"), ("u2", "w2")] }
          "f1" "t" "u1").2 "f2" "t" "u2").1 = "w2" ∧
    (ensure_thread_workspace
        (ensure_thread_workspace
          { users := ["u1", "u2"], user_workspaces := [("u1", "w1"), ("u2", "w2")] }
          "f1" "t" "u1").2 "f2" "t" "u2").2.thread_workspaces = [("t", "w2")] := by
  refine ⟨by decide, by decide, by decide, by decide⟩

/-- C1 (amended): the thread→workspace mapping is an upsert, so the last bind
wins: every call maps the thread to the workspace of the calling user's
canonical user and returns it; a subsequent call whose user resolves to the
same canonical user returns the same workspace and leaves the database
unchanged, while a bind by a user with a different workspace re-points the
thread. -/
theorem ensure_thread_workspace_last_bind (db : WDB) (f f' t u u' : String)
    (h : resolve_user_id db u' = resolve_user_id db u) :
    get_thread_workspace (ensure_thread_workspace db f t u).2 t =
      some (ensure_thread_workspace db f t u).1 ∧
    ensure_thread_workspace (ensure_thread_workspace db f t u).2 f' t u' =
      ensure_thread_workspace db f t u := by
  constructor
  · unfold ensure_thread_workspace get_thread_workspace
    exact alookup_upsert_self t _ _
  · rw [ensure_thread_workspace_pair db f t u]
    set c := resolve_user_id db u with hc
    set r := ensure_user_workspace db f c with hr
    set db1 : WDB :=
      { r.2 with thread_workspaces := upsert t r.1 r.2.thread_workspaces } with hdb1
    have hres : resolve_user_id db1 u' = c := by
      have hal : db1.user_aliases = db.user_aliases :=
        (ensure_user_workspace_fields db f c).1
      unfold resolve_user_id
      rw [hal]
      exact h
    have hmem : c ∈ db1.users := (ensure_user_workspace_fields db f c).2.2
    have hws : alookup c db1.user_workspaces = some r.1 :=
      ensure_user_workspace_found db f c
    rw [ensure_thread_workspace_pair db1 f' t u', hres,
      ensure_user_workspace_stable db1 f' c r.1 hmem hws]
    have hthr : upsert t r.1 db1.thread_workspaces = db1.thread_workspaces :=
      upsert_self_of_alookup t r.1 _ (alookup_upsert_self t _ _)
    rw [hthr]

/-- C1 witness: binding via the alias "a" of canonical user u1 after binding
via u1 itself returns the same workspace and leaves the database unchanged. -/
theorem ensure_thread_workspace_last_bind_witness :
    get_thread_workspace
        (ensure_thread_workspace
          { users := ["u1"], user_aliases := [("a", "u1")],
            user_workspaces := [("u1", "w1")] } "f1" "t" "u1").2 "t" =
      some (ensure_thread_workspace
          { users := ["u1"], user_aliases := [("a", "u1")],
            user_workspaces := [("u1", "w1")] } "f1" "t" "u1").1 ∧
    ensure_thread_workspace
        (ensure_thread_workspace
          { users := ["u1"], user_aliases := [("a", "u1")],
            user_workspaces := [("u1", "w1")] } "f1" "t" "u1").2 "f2" "t" "a" =
      ensure_thread_workspace
        { users := ["u1"], user_aliases := [("a", "u1")],
          user_workspaces := [("u1", "w1")] } "f1" "t" "u1" :=
  ensure_thread_workspace_last_bind
    { users := ["u1"], user_aliases := [("a", "u1")],
      user_workspaces := [("u1", "w1")] } "f1" "f2" "t" "u1" "a" (by decide)

end C1ThreadWorkspace

section C5FileSandbox

/-- C5: `_validate_path` succeeds exactly when the resolved path lies under
the sandbox root and carries an allow-listed suffix — so it raises a
SecurityError whenever the canonical form escapes the root or the suffix is
not allowed — and every path it returns is the resolved path, under the
root, with an allowed suffix; `_validate_size` succeeds exactly when the
content is at most max_file_size_mb megabytes. -/
theorem validate_path_size_spec (sb : Sandbox) (cwd : List String) (p : PyPath)
    (n : Nat) :
    ((validate_path sb cwd p).isOk =
      (underRoot sb.root (pyResolve cwd p) &&
        decide (lowerStr (pySuffix (pyResolve cwd p)) ∈ sb.allowed_extensions))) ∧
    (∀ res, validate_path sb cwd p = .ok res →
      res = pyResolve cwd p ∧ underRoot sb.root res = true ∧
        lowerStr (pySuffix res) ∈ sb.allowed_extensions) ∧
    ((validate_size sb n).isOk = true ↔ n ≤ sb.max_file_size_mb * 1024 * 1024) := by
  refine ⟨?_, ?_, ?_⟩
  · unfold validate_path
    by_cases h1 : underRoot sb.root (pyResolve cwd p) = true
    · by_cases h2 : lowerStr (pySuffix (pyResolve cwd p)) ∈ sb.allowed_extensions
      · simp [h1, h2, Except.isOk, Except.toBool]
      · simp [h1, h2, Except.isOk, Except.toBool]
    · simp [h1, Except.isOk, Except.toBool]
  · intro res hres
    unfold validate_path at hres
    by_cases h1 : underRoot sb.root (pyResolve cwd p) = true
    · by_cases h2 : lowerStr (pySuffix (pyResolve cwd p)) ∈ sb.allowed_extensions
      · rw [if_neg (by simp [h1]), if_neg (by simp [h2])] at hres
        cases hres
        exact ⟨rfl, h1, h2⟩
      · rw [if_neg (by simp [h1]), if_pos (by simp [h2])] at hres
        cases hres
    · rw [if_pos (by simp [h1])] at hres
      cases hres
  · unfold validate_size Sandbox.max_bytes
    by_cases h : n > sb.max_file_size_mb * 1024 * 1024 <;>
      simp [h, Except.isOk, Except.toBool] <;> omega

/-- C5 witness: in a sandbox rooted at data/files allowing ".txt", the path
x.txt resolves under the root with an allowed suffix. -/
theorem validate_path_size_spec_witness :
    ["data", "files", "x.txt"] =
        pyResolve ["data", "files"] ⟨false, ["x.txt"]⟩ ∧
    underRoot (["data", "files"] : List String) ["data", "files", "x.txt"] = true ∧
    lowerStr (pySuffix ["data", "files", "x.txt"]) ∈ ([".txt"] : List String) :=
  (validate_path_size_spec ⟨["data", "files"], [".txt"], 10⟩ ["data", "files"]
      ⟨false, ["x.txt"]⟩ 5).2.1 ["data", "files", "x.txt"] (by rfl)

end C5FileSandbox

section C3AccessControl

theorem latticePermits_mono (p q action : String)
    (hrank : aclRank q ≤ aclRank p) (hq : latticePermits q action = true) :
    latticePermits p action = true := by
  unfold aclRank at hrank
  unfold latticePermits at hq ⊢
  by_cases hq1 : q == "admin" <;> by_cases hq2 : q == "write" <;>
    by_cases hq3 : q == "read" <;> by_cases hp1 : p == "admin" <;>
    by_cases hp2 : p == "write" <;> by_cases hp3 : p == "read" <;>
    simp_all <;> omega

theorem permits_implies_filter (g action : String)
    (h : latticePermits g action = true) :
    (action == "read" || g == "write" || g == "admin") = true := by
  unfold latticePermits at h
  by_cases h1 : g == "admin" <;> by_cases h2 : g == "write" <;>
    by_cases h3 : g == "read" <;> simp_all

theorem aclFold_rank_ge (rest : List AclRow) (c : String) :
    aclRank c ≤ aclRank (rest.foldl
      (fun best r' => if aclRank r'.permission > aclRank best then r'.permission else best)
      c) ∧
    ∀ r ∈ rest, aclRank r.permission ≤ aclRank (rest.foldl
      (fun best r' => if aclRank r'.permission > aclRank best then r'.permission else best)
      c) := by
  induction rest generalizing c with
  | nil => exact ⟨le_refl _, by simp⟩
  | cons r rest ih =>
    have hstep : aclRank c ≤ aclRank (if aclRank r.permission > aclRank c
          then r.permission else c) ∧
        aclRank r.permission ≤ aclRank (if aclRank r.permission > aclRank c
          then r.permission else c) := by
      split <;> omega
    refine ⟨le_trans hstep.1 (ih _).1, ?_⟩
    intro r0 hr0
    rcases List.mem_cons.mp hr0 with h | h
    · subst h
      exact le_trans hstep.2 (ih _).1
    · exact (ih _).2 r0 h

theorem aclFold_mem (rest : List AclRow) (c : String) :
    rest.foldl
        (fun best r' => if aclRank r'.permission > aclRank best then r'.permission else best)
        c = c ∨
      rest.foldl
        (fun best r' => if aclRank r'.permission > aclRank best then r'.permission else best)
        c ∈ rest.map (fun r => r.permission) := by
  induction rest generalizing c with
  | nil => exact Or.inl rfl
  | cons r rest ih =>
    rcases ih (if aclRank r.permission > aclRank c then r.permission else c) with h | h
    · rw [List.foldl_cons, h]
      split
      · exact Or.inr (by simp)
      · exact Or.inl rfl
    · rw [List.foldl_cons]
      exact Or.inr (List.mem_cons_of_mem _ h)

theorem grantChecks_eq_latticePermits (g action : String) :
    (if g == "admin" then true
     else if g == "write" && (action == "read" || action == "write") then true
     else if g == "read" && action == "read" then true
     else false) = latticePermits g action := by
  unfold latticePermits
  by_cases h1 : g == "admin" <;> by_cases h2 : g == "write" <;>
    by_cases h3 : g == "read" <;> simp_all [beq_eq_decide] <;>
    first
    | rfl
    | (congr 1 <;> exact decide_eq_decide.mpr Iff.rfl)
    | exact decide_eq_decide.mpr Iff.rfl

theorem aclAllows_eq_candidates_any (db : WDB) (now : Int)
    (workspace_id user_id action : String) :
    aclAllows db now workspace_id user_id action =
      (aclCandidates db now workspace_id user_id action).any
        (fun r => latticePermits r.permission action) := by
  unfold aclAllows aclCandidates
  induction db.workspace_acl with
  | nil => rfl
  | cons r rest ih =>
    rw [List.any_cons, List.filter_cons]
    cases hP : latticePermits r.permission action with
    | true =>
      have hF := permits_implies_filter r.permission action hP
      cases hA : (r.workspace_id == workspace_id) <;>
        cases hB : (r.target_user_id == user_id) <;>
        cases hC : (match r.expires_at with
          | none => true
          | some e => decide (now < e)) <;>
        simp [hA, hB, hC, hF, hP, ih]
    | false =>
      cases hA : (r.workspace_id == workspace_id) <;>
        cases hB : (r.target_user_id == user_id) <;>
        cases hC : (match r.expires_at with
          | none => true
          | some e => decide (now < e)) <;>
        cases hF : (action == "read" || r.permission == "write" ||
          r.permission == "admin") <;>
        simp [hA, hB, hC, hF, hP, ih]

theorem aclBest_eq_allows (db : WDB) (now : Int)
    (workspace_id user_id action : String) :
    (match aclBestGrant db now workspace_id user_id action with
     | some g => latticePermits g action
     | none => false) = aclAllows db now workspace_id user_id action := by
  rw [aclAllows_eq_candidates_any]
  cases hc : aclCandidates db now workspace_id user_id action with
  | nil =>
    have hbg : aclBestGrant db now workspace_id user_id action = none := by
      unfold aclBestGrant
      rw [hc]
    simp [hbg]
  | cons r rest =>
    have hbg : aclBestGrant db now workspace_id user_id action =
        some (rest.foldl
          (fun best r' => if aclRank r'.permission > aclRank best then r'.permission
            else best)
          r.permission) := by
      unfold aclBestGrant
      rw [hc]
    simp only [hbg, List.any_cons]
    have hge := aclFold_rank_ge rest r.permission
    have hmem := aclFold_mem rest r.permission
    by_cases hp : latticePermits
        (rest.foldl
          (fun best r' => if aclRank r'.permission > aclRank best then r'.permission
            else best)
          r.permission) action = true
    · rw [hp]
      rcases hmem with h | h
      · rw [h] at hp
        simp [hp]
      · obtain ⟨r0, hr0, hperm⟩ := List.mem_map.mp h
        have h0 : latticePermits r0.permission action = true := by
          rw [hperm]
          exact hp
        have hany : rest.any (fun r => latticePermits r.permission action) = true :=
          List.any_eq_true.mpr ⟨r0, hr0, h0⟩
        simp [hany]
    · rw [Bool.eq_false_iff.mpr hp]
      cases hany : (latticePermits r.permission action ||
          rest.any fun r => latticePermits r.permission action) with
      | false => rfl
      | true =>
        exfalso
        rw [Bool.or_eq_true] at hany
        rcases hany with h0 | h0
        · exact hp (latticePermits_mono _ r.permission action hge.1 h0)
        · obtain ⟨r0, hr0, hp0⟩ := List.any_eq_true.mp h0
          exact hp (latticePermits_mono _ r0.permission action (hge.2 r0 hr0) hp0)

/-- C3: `can_access` follows the precedence owner > explicit member > group >
public > ACL: the canonical user owning the workspace always passes; else an
explicit member's role alone decides, under the lattice admin ⊇
{read, write, admin}, editor ⊇ {read, write}, reader ⊇ {read}; else a member
of the owning group decides — group admins act as workspace admins, other
group members get read only; else a public workspace grants read; else the
call succeeds exactly when some unexpired ACL grant to the canonical user
permits the action under the grant lattice. -/
theorem can_access_precedence (db : WDB) (now : Int) (u wid action : String)
    (w : WorkspaceRow) (hw : get_workspace_info db wid = some w) :
    (w.owner_user_id = some (resolve_user_id db u) →
      can_access db now u wid action = true) ∧
    (∀ role, w.owner_user_id ≠ some (resolve_user_id db u) →
      memberRole db wid (resolve_user_id db u) = some role →
      can_access db now u wid action = rolePermissions role action) ∧
    rolePermissions "admin" action =
      (action == "read" || action == "write" || action == "admin") ∧
    rolePermissions "editor" action = (action == "read" || action == "write") ∧
    rolePermissions "reader" action = (action == "read") ∧
    (∀ gid grole, w.owner_user_id ≠ some (resolve_user_id db u) →
      memberRole db wid (resolve_user_id db u) = none →
      w.owner_group_id = some gid →
      groupRole db gid (resolve_user_id db u) = some grole →
      can_access db now u wid action = (grole == "admin" || action == "read")) ∧
    (w.owner_user_id ≠ some (resolve_user_id db u) →
      memberRole db wid (resolve_user_id db u) = none →
      (∀ gid, w.owner_group_id = some gid →
        groupRole db gid (resolve_user_id db u) = none) →
      w.wtype = "public" → action = "read" →
      can_access db now u wid action = true) ∧
    (w.owner_user_id ≠ some (resolve_user_id db u) →
      memberRole db wid (resolve_user_id db u) = none →
      (∀ gid, w.owner_group_id = some gid →
        groupRole db gid (resolve_user_id db u) = none) →
      ¬ (w.wtype = "public" ∧ action = "read") →
      can_access db now u wid action =
        aclAllows db now wid (resolve_user_id db u) action) := by
  refine ⟨?_, ?_, by unfold rolePermissions; simp, by unfold rolePermissions; simp,
    by unfold rolePermissions; simp, ?_, ?_, ?_⟩
  · intro how
    simp only [can_access, hw]
    rw [if_pos how]
  · intro role hno hm
    simp only [can_access, hw, hm]
    rw [if_neg hno]
  · intro gid grole hno hm hg hgr
    simp only [can_access, hw, hm, hg, hgr]
    rw [if_neg hno]
  · intro hno hm hga hpub hact
    cases hg : w.owner_group_id with
    | none =>
      simp only [can_access, hw, hm, hg]
      rw [if_neg hno]
      simp [hpub, hact]
    | some gid =>
      have hgr := hga gid hg
      simp only [can_access, hw, hm, hg, hgr]
      rw [if_neg hno]
      simp [hpub, hact]
  · intro hno hm hga hnp
    have hcond : (w.wtype == "public" && action == "read") = false := by
      rcases not_and_or.mp hnp with h | h
      · simp [beq_eq_false_iff_ne.mpr h]
      · simp [beq_eq_false_iff_ne.mpr h]
    cases hg : w.owner_group_id with
    | none =>
      simp only [can_access, hw, hm, hg]
      rw [if_neg hno, hcond]
      simp only [Bool.false_eq_true, if_false]
      rw [← aclBest_eq_allows db now wid (resolve_user_id db u) action]
      cases hb : aclBestGrant db now wid (resolve_user_id db u) action with
      | none => rfl
      | some g => exact grantChecks_eq_latticePermits g action
    | some gid =>
      have hgr := hga gid hg
      simp only [can_access, hw, hm, hg, hgr]
      rw [if_neg hno, hcond]
      simp only [Bool.false_eq_true, if_false]
      rw [← aclBest_eq_allows db now wid (resolve_user_id db u) action]
      cases hb : aclBestGrant db now wid (resolve_user_id db u) action with
      | none => rfl
      | some g => exact grantChecks_eq_latticePermits g action

/-- C3 witness: in a concrete group workspace the owner passes the admin
check. -/
theorem can_access_precedence_witness :
    can_access
      { workspaces := [⟨"w", "group", "g", some "owner", some "g1", none⟩],
        workspace_members := [⟨"w", "m1", "reader"⟩],
        group_members := [⟨"g1", "m2", "member"⟩],
        workspace_acl := [⟨"w", "m3", "write", some 100⟩] }
      0 "owner" "w" "admin" = true :=
  (can_access_precedence
    { workspaces := [⟨"w", "group", "g", some "owner", some "g1", none⟩],
      workspace_members := [⟨"w", "m1", "reader"⟩],
      group_members := [⟨"g1", "m2", "member"⟩],
      workspace_acl := [⟨"w", "m3", "write", some 100⟩] }
    0 "owner" "w" "admin" ⟨"w", "group", "g", some "owner", some "g1", none⟩
    (by decide)).1 (by decide)

end C3AccessControl

section C9MessageSplit

theorem interleaved_append_filler {P : Char → Bool} {cs : List (List Char)}
    {x : List Char} (h : Interleaved P cs x) (s : List Char)
    (hs : ∀ c ∈ s, P c = true) : Interleaved P cs (x ++ s) := by
  induction h with
  | nil s0 hs0 =>
    exact Interleaved.nil _ (by
      intro c hc
      rcases List.mem_append.mp hc with h | h
      · exact hs0 c h
      · exact hs c h)
  | cons chunk cs s0 rest hs0 hrest ih =>
    have hx := Interleaved.cons chunk cs s0 (rest ++ s) hs0 ih
    simpa [List.append_assoc] using hx

theorem interleaved_prepend_filler {P : Char → Bool} {cs : List (List Char)}
    {x : List Char} (h : Interleaved P cs x) (s : List Char)
    (hs : ∀ c ∈ s, P c = true) : Interleaved P cs (s ++ x) := by
  cases h with
  | nil s0 hs0 =>
    exact Interleaved.nil _ (by
      intro c hc
      rcases List.mem_append.mp hc with h | h
      · exact hs c h
      · exact hs0 c h)
  | cons chunk cs s0 rest hs0 hrest =>
    rw [← List.append_assoc]
    exact Interleaved.cons chunk cs (s ++ s0) rest
      (by
        intro c hc
        rcases List.mem_append.mp hc with h | h
        · exact hs c h
        · exact hs0 c h)
      hrest

theorem interleaved_append_chunk {P : Char → Bool} {cs : List (List Char)}
    {x : List Char} (h : Interleaved P cs x) (ch s : List Char)
    (hs : ∀ c ∈ s, P c = true) :
    Interleaved P (cs ++ [ch]) (x ++ ch ++ s) := by
  induction h with
  | nil s0 hs0 =>
    have : Interleaved P [ch] (s0 ++ (ch ++ s)) :=
      Interleaved.cons ch [] s0 s hs0 (Interleaved.nil s hs)
    simpa [List.append_assoc] using this
  | cons chunk cs s0 rest hs0 hrest ih =>
    have : Interleaved P (chunk :: (cs ++ [ch]))
        (s0 ++ (chunk ++ (rest ++ ch ++ s))) :=
      Interleaved.cons chunk (cs ++ [ch]) s0 (rest ++ ch ++ s) hs0 ih
    simpa [List.append_assoc] using this

theorem interleaved_append_chunks {P : Char → Bool} {cs : List (List Char)}
    {x : List Char} (h : Interleaved P cs x) (ps : List (List Char)) :
    Interleaved P (cs ++ ps) (x ++ ps.join) := by
  induction ps generalizing cs x with
  | nil => simpa using h
  | cons p ps ih =>
    have h1 : Interleaved P (cs ++ [p]) (x ++ p ++ []) :=
      interleaved_append_chunk h p [] (by intro c hc; cases hc)
    have h2 := ih h1
    simpa [List.append_assoc] using h2

theorem interleaved_filter {P : Char → Bool} {cs : List (List Char)}
    {x : List Char} (h : Interleaved P cs x) :
    Interleaved P (cs.filter (fun c => c ≠ [])) x := by
  induction h with
  | nil s hs => exact Interleaved.nil s hs
  | cons chunk cs s rest hs hrest ih =>
    by_cases hc : chunk = []
    · subst hc
      simp only [List.filter_cons]
      rw [if_neg (by simp)]
      simpa using interleaved_prepend_filler ih s hs
    · simp only [List.filter_cons]
      rw [if_pos (by simpa using hc)]
      exact Interleaved.cons chunk _ s rest hs ih

theorem interleaved_count {P : Char → Bool} {cs : List (List Char)}
    {x : List Char} (h : Interleaved P cs x) (a : Char) (ha : P a = false) :
    x.count a = (cs.map (fun c => c.count a)).sum := by
  induction h with
  | nil s hs =>
    simp only [List.map_nil, List.sum_nil]
    rw [List.count_eq_zero]
    intro hmem
    rw [hs a hmem] at ha
    cases ha
  | cons chunk cs s rest hs hrest ih =>
    have hzero : s.count a = 0 := by
      rw [List.count_eq_zero]
      intro hmem
      rw [hs a hmem] at ha
      cases ha
    simp [List.count_append, hzero, ih]

theorem rstrip_decomp (l : List Char) :
    ∃ s, l = rstrip l ++ s ∧ ∀ c ∈ s, isPyWs c = true := by
  refine ⟨(l.reverse.takeWhile isPyWs).reverse, ?_, ?_⟩
  · unfold rstrip
    conv_lhs => rw [← List.reverse_reverse l]
    rw [← List.reverse_append]
    rw [List.takeWhile_append_dropWhile]
  · intro c hc
    rw [List.mem_reverse] at hc
    exact List.mem_takeWhile_imp hc

theorem rstrip_append_ws (l : List Char) (c : Char) (hc : isPyWs c = true) :
    rstrip (l ++ [c]) = rstrip l := by
  unfold rstrip
  rw [List.reverse_append]
  simp [List.dropWhile_cons, hc]

theorem rstrip_length_le (l : List Char) : (rstrip l).length ≤ l.length := by
  unfold rstrip
  rw [List.length_reverse]
  calc (l.reverse.dropWhile isPyWs).length ≤ l.reverse.length :=
        (List.dropWhile_sublist _).length_le
    _ = l.length := List.length_reverse l

theorem rstrip_no_ws (l : List Char) (h : ∀ c ∈ l, isPyWs c = false) :
    rstrip l = l := by
  unfold rstrip
  rw [List.dropWhile_eq_self_iff.mpr, List.reverse_reverse]
  intro hne
  have hmem : l.reverse.get ⟨0, hne⟩ ∈ l.reverse := List.get_mem _ _ _
  rw [List.mem_reverse] at hmem
  rw [h _ hmem]
  simp

theorem hardSplitGo_join (maxLen : Nat) (hM : 1 ≤ maxLen) :
    ∀ fuel l, l.length ≤ fuel → (hardSplitGo maxLen fuel l).join = l := by
  intro fuel
  induction fuel with
  | zero =>
    intro l hl
    rw [Nat.le_zero, List.length_eq_zero] at hl
    subst hl
    rfl
  | succ fuel ih =>
    intro l hl
    cases l with
    | nil => rfl
    | cons c l' =>
      rw [hardSplitGo, if_neg (by simp)]
      have hdrop : (List.drop maxLen (c :: l')).length ≤ fuel := by
        simp only [List.length_drop, List.length_cons]
        simp only [List.length_cons] at hl
        omega
      rw [List.join, List.flatten_cons]
      have ihh := ih _ hdrop
      rw [List.join] at ihh
      rw [ihh]
      exact List.take_append_drop _ _

theorem hardSplitGo_length_le (maxLen : Nat) :
    ∀ fuel l p, p ∈ hardSplitGo maxLen fuel l → p.length ≤ maxLen := by
  intro fuel
  induction fuel with
  | zero => intro l p hp; simp [hardSplitGo] at hp
  | succ fuel ih =>
    intro l p hp
    cases l with
    | nil => simp [hardSplitGo] at hp
    | cons c l' =>
      rw [hardSplitGo, if_neg (by simp)] at hp
      rcases List.mem_cons.mp hp with h | h
      · subst h
        simp [List.length_take]
      · exact ih _ p h

theorem splitOnNl_rejoin (l : List Char) :
    ∃ L rest, splitOnNl l = L :: rest ∧
      l = L ++ (rest.map (fun x => '\n' :: x)).join := by
  induction l with
  | nil => exact ⟨[], [], rfl, rfl⟩
  | cons c l' ih =>
    obtain ⟨L, rest, hsplit, hjoin⟩ := ih
    by_cases hc : c = '\n'
    · subst hc
      refine ⟨[], L :: rest, ?_, ?_⟩
      · rw [splitOnNl, if_pos rfl, hsplit]
      · simp [hjoin]
    · refine ⟨c :: L, rest, ?_, ?_⟩
      · rw [splitOnNl, if_neg hc, hsplit]
      · simp [hjoin]

theorem splitOnNl_no_nl (l : List Char) (h : '\n' ∉ l) : splitOnNl l = [l] := by
  induction l with
  | nil => rfl
  | cons c l' ih =>
    have hc : c ≠ '\n' := fun he => h (he ▸ List.mem_cons_self c l')
    rw [splitOnNl, if_neg hc, ih (fun hm => h (List.mem_cons_of_mem c hm))]

theorem ws_newline : isPyWs '\n' = true := by decide

theorem splitStep_inv (maxLen : Nat) (hM : 1 ≤ maxLen) (st : SplitState)
    (T L : List Char) (h : SplitInv st T) :
    SplitInv (splitStep maxLen st L) (T ++ '\n' :: L) := by
  obtain ⟨chunks, cc⟩ := st
  unfold SplitInv at h ⊢
  unfold splitStep
  simp only at h ⊢
  have hwsnl : ∀ c ∈ ['\n'], isPyWs c = true := by
    intro c hc
    rw [List.mem_singleton] at hc
    subst hc
    exact ws_newline
  rcases h with ⟨hcc, hint⟩ | ⟨body, I, hcc, hT, hint⟩
  · subst hcc
    by_cases h1 : List.length ([] : List Char) + L.length + 1 > maxLen
    · rw [if_pos h1]
      by_cases h2 : L.length > maxLen
      · rw [if_pos h2]
        left
        refine ⟨rfl, ?_⟩
        simp only [ne_eq, not_true_eq_false, if_false]
        have ha := interleaved_append_filler hint ['\n'] hwsnl
        have hb := interleaved_append_chunks ha (hardSplit maxLen L)
        rw [hardSplit, hardSplitGo_join maxLen hM _ _ (le_refl _)] at hb
        simpa [List.append_assoc] using hb
      · rw [if_neg h2]
        right
        refine ⟨L, T ++ ['\n'], by simp, by simp, ?_⟩
        exact interleaved_append_filler hint ['\n'] hwsnl
    · rw [if_neg h1]
      right
      refine ⟨L, T ++ ['\n'], by simp, by simp, ?_⟩
      exact interleaved_append_filler hint ['\n'] hwsnl
  · subst hcc
    subst hT
    obtain ⟨w, hwdec, hwws⟩ := rstrip_decomp body
    have hr : rstrip (body ++ ['\n']) = rstrip body :=
      rstrip_append_ws body '\n' ws_newline
    have hwsnlw : ∀ c ∈ w ++ ['\n'], isPyWs c = true := by
      intro c hc
      rcases List.mem_append.mp hc with h | h
      · exact hwws c h
      · exact hwsnl c h
    have hI' : Interleaved isPyWs (chunks ++ [rstrip body])
        (I ++ (rstrip body ++ (w ++ ['\n']))) := by
      have := interleaved_append_chunk hint (rstrip body) (w ++ ['\n']) hwsnlw
      simpa [List.append_assoc] using this
    by_cases h1 : (body ++ ['\n']).length + L.length + 1 > maxLen
    · rw [if_pos h1]
      by_cases h2 : L.length > maxLen
      · rw [if_pos h2]
        left
        refine ⟨rfl, ?_⟩
        rw [if_pos (by simp)]
        rw [hr]
        have hb := interleaved_append_chunks hI' (hardSplit maxLen L)
        rw [hardSplit, hardSplitGo_join maxLen hM _ _ (le_refl _)] at hb
        have hshape : I ++ (rstrip body ++ (w ++ ['\n'])) ++ L =
            I ++ body ++ '\n' :: L := by
          conv_rhs => rw [hwdec]
          simp [List.append_assoc]
        rw [hshape] at hb
        simpa [List.append_assoc] using hb
      · rw [if_neg h2]
        right
        rw [if_pos (by simp)]
        rw [hr]
        refine ⟨L, I ++ (rstrip body ++ (w ++ ['\n'])), by simp, ?_, hI'⟩
        conv_lhs => rw [hwdec]
        simp [List.append_assoc]
    · rw [if_neg h1]
      right
      refine ⟨body ++ '\n' :: L, I, by simp, by simp, hint⟩

theorem splitFold_inv (maxLen : Nat) (hM : 1 ≤ maxLen) :
    ∀ (lines : List (List Char)) (st : SplitState) (T : List Char),
      SplitInv st T →
      SplitInv (lines.foldl (splitStep maxLen) st)
        (T ++ (lines.map (fun l => '\n' :: l)).join) := by
  intro lines
  induction lines with
  | nil =>
    intro st T h
    simpa using h
  | cons L lines ih =>
    intro st T h
    have h1 := splitStep_inv maxLen hM st T L h
    have h2 := ih (splitStep maxLen st L) (T ++ '\n' :: L) h1
    simpa [List.append_assoc] using h2

theorem splitFirst_inv (maxLen : Nat) (hM : 1 ≤ maxLen) (L : List Char) :
    SplitInv (splitStep maxLen ⟨[], []⟩ L) L := by
  unfold SplitInv splitStep
  simp only
  by_cases h1 : List.length ([] : List Char) + L.length + 1 > maxLen
  · rw [if_pos h1]
    by_cases h2 : L.length > maxLen
    · rw [if_pos h2]
      left
      refine ⟨rfl, ?_⟩
      simp only [ne_eq, not_true_eq_false, if_false]
      have hb := interleaved_append_chunks
        (Interleaved.nil (P := isPyWs) [] (by intro c hc; cases hc))
        (hardSplit maxLen L)
      rw [hardSplit, hardSplitGo_join maxLen hM _ _ (le_refl _)] at hb
      simpa using hb
    · rw [if_neg h2]
      right
      exact ⟨L, [], by simp, by simp,
        Interleaved.nil [] (by intro c hc; cases hc)⟩
  · rw [if_neg h1]
    right
    exact ⟨L, [], by simp, by simp,
      Interleaved.nil [] (by intro c hc; cases hc)⟩

theorem buildChunks_interleaved (maxLen : Nat) (hM : 1 ≤ maxLen)
    (content : List Char) :
    Interleaved isPyWs (buildChunks maxLen content) content := by
  obtain ⟨L, rest, hsplit, hjoin⟩ := splitOnNl_rejoin content
  unfold buildChunks
  rw [hsplit, List.foldl_cons]
  have h1 := splitFirst_inv maxLen hM L
  have h2 := splitFold_inv maxLen hM rest _ _ h1
  rw [← hjoin] at h2
  unfold SplitInv at h2
  rcases h2 with ⟨hcc, hint⟩ | ⟨body, I, hcc, hT, hint⟩
  · simp only [hcc]
    simpa using hint
  · simp only [hcc]
    rw [if_pos (by simp)]
    obtain ⟨w, hwdec, hwws⟩ := rstrip_decomp body
    rw [rstrip_append_ws body '\n' ws_newline]
    have hcont : I ++ body = I ++ (rstrip body ++ w) := by rw [← hwdec]
    rw [hT, hcont]
    have := interleaved_append_chunk hint (rstrip body) w hwws
    simpa [List.append_assoc] using this

theorem splitStep_size_inv (maxLen : Nat) (st : SplitState) (L : List Char)
    (h : SplitSizeInv maxLen st) : SplitSizeInv maxLen (splitStep maxLen st L) := by
  obtain ⟨chunks, cc⟩ := st
  obtain ⟨hshape, hlen⟩ := h
  unfold SplitSizeInv at *
  unfold splitStep
  simp only at hshape hlen ⊢
  have hflush : ∀ ch ∈ (if cc ≠ [] then chunks ++ [rstrip cc] else chunks),
      ch.length ≤ maxLen := by
    intro ch hch
    by_cases hcc : cc = []
    · rw [if_neg (by simpa using hcc)] at hch
      exact hlen ch hch
    · rw [if_pos (by simpa using hcc)] at hch
      rcases List.mem_append.mp hch with hm | hm
      · exact hlen ch hm
      · rw [List.mem_singleton] at hm
        subst hm
        rcases hshape with h0 | ⟨body, hb, hble⟩
        · exact absurd h0 hcc
        · rw [hb, rstrip_append_ws body '\n' ws_newline]
          have := rstrip_length_le body
          have hblen : (body ++ ['\n']).length = body.length + 1 := by simp
          rw [hb] at hble
          omega
  by_cases h1 : cc.length + L.length + 1 > maxLen
  · rw [if_pos h1]
    by_cases h2 : L.length > maxLen
    · rw [if_pos h2]
      refine ⟨Or.inl rfl, ?_⟩
      intro ch hch
      rcases List.mem_append.mp hch with hm | hm
      · exact hflush ch hm
      · exact hardSplitGo_length_le maxLen _ _ ch hm
    · rw [if_neg h2]
      refine ⟨Or.inr ⟨L, rfl, by simp; omega⟩, hflush⟩
  · rw [if_neg h1]
    refine ⟨Or.inr ⟨cc ++ L, by simp, by simp; omega⟩, hlen⟩

theorem buildChunks_length_le (maxLen : Nat) (content : List Char) :
    ∀ ch ∈ buildChunks maxLen content, ch.length ≤ maxLen := by
  have hfold : ∀ (lines : List (List Char)) (st : SplitState),
      SplitSizeInv maxLen st →
      SplitSizeInv maxLen (lines.foldl (splitStep maxLen) st) := by
    intro lines
    induction lines with
    | nil => intro st h; exact h
    | cons L lines ih =>
      intro st h
      exact ih _ (splitStep_size_inv maxLen st L h)
  have hinit : SplitSizeInv maxLen ⟨[], []⟩ := by
    refine ⟨Or.inl rfl, ?_⟩
    intro ch hch
    cases hch
  have hfinal := hfold (splitOnNl content) _ hinit
  obtain ⟨hshape, hlen⟩ := hfinal
  unfold buildChunks
  intro ch hch
  by_cases hcc : ((splitOnNl content).foldl (splitStep maxLen) ⟨[], []⟩).cc = []
  · rw [if_neg (by simpa using hcc)] at hch
    exact hlen ch hch
  · rw [if_pos (by simpa using hcc)] at hch
    rcases List.mem_append.mp hch with hm | hm
    · exact hlen ch hm
    · rw [List.mem_singleton] at hm
      subst hm
      rcases hshape with h0 | ⟨body, hb, hble⟩
      · exact absurd h0 hcc
      · rw [hb, rstrip_append_ws body '\n' ws_newline]
        have := rstrip_length_le body
        rw [hb] at hble
        simp only [List.length_append, List.length_singleton] at hble
        omega

end C9MessageSplit

/-- C9 (amended): for every content string, the chunks emitted by
`_send_long_message` are each non-empty and at most `MAX_MESSAGE_LENGTH`
characters, and the content is exactly those chunks in order, separated and
framed by runs of whitespace characters (the newlines consumed by the split
and the trailing whitespace removed by `rstrip` at chunk boundaries); the
original claim that re-inserting newlines alone reproduces the content fails,
because `rstrip` also removes non-newline trailing whitespace. -/
theorem send_long_message_split (content : List Char) :
    (∀ ch ∈ emittedChunks MAX_MESSAGE_LENGTH content,
      ch ≠ [] ∧ ch.length ≤ MAX_MESSAGE_LENGTH) ∧
    Interleaved PyStr.isPyWs (emittedChunks MAX_MESSAGE_LENGTH content) content := by
  constructor
  · intro ch hch
    rw [emittedChunks] at hch
    refine ⟨by simpa using List.of_mem_filter hch, ?_⟩
    exact buildChunks_length_le MAX_MESSAGE_LENGTH content ch
      (List.mem_of_mem_filter hch)
  · have h := buildChunks_interleaved MAX_MESSAGE_LENGTH
      (by norm_num [MAX_MESSAGE_LENGTH]) content
    rw [emittedChunks]
    exact interleaved_filter h

/-- C9 counterexample to the original claim: for the content
`"a \n" ++ 4096 * "b"` the emitted chunks are `["a", 4096 * "b"]`; the space
before the newline is in no chunk, so no interleaving of the chunks with
newline-only filler (in particular no concatenation restoring the stripped
trailing newlines) can reproduce the content. -/
theorem split_restore_newlines_counterexample :
    ¬ Interleaved (fun c => c == '\n')
      (emittedChunks MAX_MESSAGE_LENGTH
        ('a' :: ' ' :: '\n' :: List.replicate MAX_MESSAGE_LENGTH 'b'))
      ('a' :: ' ' :: '\n' :: List.replicate MAX_MESSAGE_LENGTH 'b') := by
  intro h
  have key : ∀ R : List Char, R.length = MAX_MESSAGE_LENGTH → '\n' ∉ R →
      (∀ c ∈ R, isPyWs c = false) → R.count ' ' = 0 →
      ¬ Interleaved (fun c => c == '\n')
        (emittedChunks MAX_MESSAGE_LENGTH ('a' :: ' ' :: '\n' :: R))
        ('a' :: ' ' :: '\n' :: R) := by
    intro R hlen hnonl hnows hcount hI
    have hne : R ≠ [] := by
      intro hc
      rw [hc] at hlen
      simp [MAX_MESSAGE_LENGTH] at hlen
    have hR : splitOnNl R = [R] := splitOnNl_no_nl R hnonl
    have h1 : splitOnNl ('a' :: ' ' :: '\n' :: R) = [['a', ' '], R] := by
      simp [splitOnNl, hR]
    have hst1 : splitStep MAX_MESSAGE_LENGTH ⟨[], []⟩ ['a', ' '] =
        ⟨[], ['a', ' ', '\n']⟩ := by decide
    have hst2 : splitStep MAX_MESSAGE_LENGTH ⟨[], ['a', ' ', '\n']⟩ R =
        ⟨[['a']], R ++ ['\n']⟩ := by
      unfold splitStep
      simp only
      rw [if_pos (by rw [hlen]; norm_num [MAX_MESSAGE_LENGTH])]
      rw [if_neg (by rw [hlen]; exact Nat.lt_irrefl _)]
      rw [if_pos (by simp)]
      have hra : rstrip ['a', ' ', '\n'] = ['a'] := by decide
      rw [hra]
      rfl
    have hbc : buildChunks MAX_MESSAGE_LENGTH ('a' :: ' ' :: '\n' :: R) =
        [['a'], R] := by
      unfold buildChunks
      rw [h1]
      simp only [List.foldl_cons, List.foldl_nil, hst1, hst2]
      rw [if_pos (by simp)]
      rw [rstrip_append_ws _ '\n' ws_newline, rstrip_no_ws _ hnows]
      rfl
    have hem : emittedChunks MAX_MESSAGE_LENGTH ('a' :: ' ' :: '\n' :: R) =
        [['a'], R] := by
      rw [emittedChunks, hbc]
      simp [List.filter_cons, hne]
    rw [hem] at hI
    have hcnt := interleaved_count hI ' ' (by decide)
    simp [List.count_cons, hcount] at hcnt
  exact key (List.replicate MAX_MESSAGE_LENGTH 'b')
    (List.length_replicate _ _)
    (fun hm => absurd (List.eq_of_mem_replicate hm) (by decide))
    (fun c hc => by
      have := List.eq_of_mem_replicate hc
      subst this
      decide)
    (by
      rw [List.count_eq_zero]
      intro hm
      exact absurd (List.eq_of_mem_replicate hm) (by decide))
    h
